import Mathlib

/-!
Shallow embedding of batch_portrait_and_rotate.c and its verified properties.

The program lists the working directory, keeps the regular entries whose name
has a video extension, and runs four ffmpeg commands per file (three 9:16
crops and one rotation), after preparing two output directories.

Conventions of the embedding

* A C string is the list of its characters before the terminating NUL
  (`CStr`); `strlen` is `List.length`, a pointer into a string is an offset.
* `snprintf` is a format interpreter for the `%s` directive followed by the
  truncation to `size - 1` characters that the C function performs.
* The operating system is explicit: a filesystem state (`FS`) for `stat` and
  `mkdir`, and a `World` holding the answers of `opendir`/`readdir`, `malloc`
  and `system`.  The program state (`State`) records the filesystem, the
  commands handed to `system` in order, and the console messages.
-/

namespace VideoCrop

/-! ## Strings -/

/-- C strings: the characters before the terminating NUL. -/
abbrev CStr := List Char

/-- Lines 27–28: `if (a >= 'A' && a <= 'Z') a = (char)(a - 'A' + 'a');`. -/
def to_lower_ascii (c : Char) : Char :=
  if 'A' ≤ c ∧ c ≤ 'Z' then Char.ofNat (c.toNat - 'A'.toNat + 'a'.toNat) else c

/-- Lines 25–30, the comparison loop of `has_ext`.  `has_ext_loop dot ext n i`
runs the iterations `i, i+1, …, i+n-1` (`n = le - i` iterations remain); it is
`false` as soon as two characters differ after lowering, `true` when the loop
runs to its end. -/
def has_ext_loop (dot ext : CStr) : Nat → Nat → Bool
  | 0, _ => true
  | n + 1, i =>
    if to_lower_ascii (dot.getD i '\x00') ≠ to_lower_ascii (ext.getD i '\x00') then false
    else has_ext_loop dot ext n (i + 1)

/-- Lines 20–33. -/
def has_ext (name ext : CStr) : Bool :=
  let ln := name.length
  let le := ext.length
  if ln < le + 1 then false
  else
    let dot := name.drop (ln - le)
    if has_ext_loop dot ext le 0 = false then false
    else decide (ln > le) && (name.getD (ln - le - 1) '\x00' == '.')

/-- Lines 35–37. -/
def is_video_file (name : CStr) : Bool :=
  has_ext name "mp4".toList || has_ext name "mov".toList || has_ext name "mkv".toList

/-- Scan of `strrchr`: `i` is the offset of the next character, `last` the
offset of the last occurrence seen so far. -/
def strrchr_loop (c : Char) : CStr → Nat → Option Nat → Option Nat
  | [], _, last => last
  | x :: xs, i, last => strrchr_loop c xs (i + 1) (if x = c then some i else last)

/-- C library `strrchr`: the offset of the last occurrence of `c` in `s`, or
`none` (the null pointer) when `c` does not occur. -/
def strrchr (s : CStr) (c : Char) : Option Nat :=
  strrchr_loop c s 0 none

/-- Lines 53–63.  `malloc_ok` is the answer of `malloc`: when it is `false`
the function returns `none` (the null pointer). -/
def basename_no_ext (malloc_ok : Bool) (filename : CStr) : Option CStr :=
  let slash := strrchr filename '/'
  let base := match slash with
    | some i => filename.drop (i + 1)
    | none => filename
  let dot := strrchr base '.'
  let len := match dot with
    | some j => j
    | none => base.length
  if malloc_ok then some (base.take len) else none

/-- The `%s` directive of the `printf` family: every `%s` is replaced by the
next argument, every other character is copied. -/
def format : CStr → List CStr → CStr
  | [], _ => []
  | '%' :: 's' :: rest, a :: as => a ++ format rest as
  | c :: rest, as => c :: format rest as

/-- C library `snprintf` into a buffer of `size` bytes: at most `size - 1`
characters of the formatted text are stored. -/
def snprintf (size : Nat) (fmt : CStr) (args : List CStr) : CStr :=
  (format fmt args).take (size - 1)

/-! ## Constants of the program -/

/-- Line 16. -/
def PORTRAIT_DIR : CStr := "portrait_clips".toList

/-- Line 17. -/
def ROTATE_DIR : CStr := "rotated_left".toList

/-- Line 98. -/
def vf_left : CStr := "crop=floor(ih*9/16):ih:0:0".toList

/-- Line 99. -/
def vf_mid : CStr := "crop=floor(ih*9/16):ih:(iw-floor(ih*9/16))/2:0".toList

/-- Line 100. -/
def vf_right : CStr := "crop=floor(ih*9/16):ih:(iw-floor(ih*9/16)):0".toList

/-- Size of the `out_*` buffers, lines 102 and 135. -/
def OUT_SIZE : Nat := 1024

/-- Size of the `cmd` buffer, line 107. -/
def CMD_SIZE : Nat := 4096

/-- Length limit of a directory entry name (`d_name` is `char[256]`). -/
def NAME_MAX : Nat := 255

/-- Value of `DT_DIR` in `<dirent.h>`. -/
def DT_DIR : Nat := 4

/-! ## Output paths and commands (lines 102–143) -/

/-- Line 103. -/
def out_left (base : CStr) : CStr :=
  snprintf OUT_SIZE "%s/%s_left_9x16.mp4".toList [PORTRAIT_DIR, base]

/-- Line 104. -/
def out_mid (base : CStr) : CStr :=
  snprintf OUT_SIZE "%s/%s_mid_9x16.mp4".toList [PORTRAIT_DIR, base]

/-- Line 105. -/
def out_right (base : CStr) : CStr :=
  snprintf OUT_SIZE "%s/%s_right_9x16.mp4".toList [PORTRAIT_DIR, base]

/-- Line 136. -/
def out_rot (base : CStr) : CStr :=
  snprintf OUT_SIZE "%s/%s_rotated_left_90.mp4".toList [ROTATE_DIR, base]

/-- The format of lines 111–113 (and 119–121, 127–129): three adjacent string
literals. -/
def crop_cmd_fmt : CStr :=
  "ffmpeg -y -i \"%s\" -map 0:v:0 -map 0:a? ".toList
    ++ "-vf \"%s\" -c:v libx264 -preset faster -crf 18 -c:a copy ".toList
    ++ "-movflags +faststart \"%s\"".toList

/-- The format of lines 139–141: the filter is part of the format. -/
def rot_cmd_fmt : CStr :=
  "ffmpeg -y -i \"%s\" -map 0:v:0 -map 0:a? ".toList
    ++ "-vf \"transpose=2\" -c:v libx264 -preset faster -crf 18 -c:a copy ".toList
    ++ "-movflags +faststart \"%s\"".toList

/-- Lines 110–114. -/
def cmd_left (name base : CStr) : CStr :=
  snprintf CMD_SIZE crop_cmd_fmt [name, vf_left, out_left base]

/-- Lines 118–122. -/
def cmd_mid (name base : CStr) : CStr :=
  snprintf CMD_SIZE crop_cmd_fmt [name, vf_mid, out_mid base]

/-- Lines 126–130. -/
def cmd_right (name base : CStr) : CStr :=
  snprintf CMD_SIZE crop_cmd_fmt [name, vf_right, out_right base]

/-- Lines 138–142. -/
def cmd_rot (name base : CStr) : CStr :=
  snprintf CMD_SIZE rot_cmd_fmt [name, out_rot base]

/-! ## The operating system -/

/-- What a path names in the filesystem. `dangling` is a symbolic link whose
target does not exist. -/
inductive Node
  | absent
  | dir
  | file
  | dangling
  deriving DecidableEq, Repr

/-- The `errno` values the model distinguishes. -/
inductive Errno
  | ENOENT
  | EEXIST
  | EACCES
  deriving DecidableEq, Repr

/-- Filesystem state: what each path names, and whether the system refuses to
create a directory at a path (permissions, read-only medium, …). -/
structure FS where
  node : CStr → Node
  mkdir_denied : CStr → Bool

/-- System call `stat`, which follows symbolic links: `some isDir` when it
returns 0, `none` when it fails. -/
def stat (fs : FS) (path : CStr) : Option Bool :=
  match fs.node path with
  | Node.dir => some true
  | Node.file => some false
  | Node.absent => none
  | Node.dangling => none

/-- System call `mkdir`: fails with `EEXIST` when the path names anything,
a dangling link included; otherwise creates the directory unless refused. -/
def mkdir (fs : FS) (path : CStr) : Except Errno FS :=
  match fs.node path with
  | Node.absent =>
    if fs.mkdir_denied path then Except.error Errno.EACCES
    else Except.ok { fs with node := fun p => if p = path then Node.dir else fs.node p }
  | _ => Except.error Errno.EEXIST

/-- Console messages (stderr and stdout), in the order they are written. -/
inductive Msg
  | not_a_directory (path : CStr)
  | perror (what : CStr) (e : Errno)
  | oom (name : CStr)
  | cmd_failed (ret : Int) (cmd : CStr)
  | done (portrait rotate : CStr)
  deriving DecidableEq, Repr

/-- One directory entry as `readdir` returns it. -/
structure Dirent where
  d_name : CStr
  d_type : Nat
  deriving DecidableEq, Repr

/-- The answers of the environment during one run: the initial filesystem,
the result of `opendir(".")` (the entries `readdir` will return, or the error),
the answer of `malloc` while entry number `i` is handled, and the status
`system` returns for its `k`-th call (counted from 0) on a command. -/
structure World where
  fs : FS
  opendir_dot : Except Errno (List Dirent)
  malloc_ok : Nat → Bool
  system : Nat → CStr → Int

/-- Program state: filesystem, commands passed to `system` so far (oldest
first), console output so far. -/
structure State where
  fs : FS
  cmds : List CStr
  console : List Msg

/-! ## The program -/

/-- Lines 39–50. -/
def ensure_dir (st : State) (path : CStr) : Int × State :=
  match stat st.fs path with
  | some isDir =>
    if isDir then (0, st)
    else (-1, { st with console := st.console ++ [Msg.not_a_directory path] })
  | none =>
    match mkdir st.fs path with
    | Except.ok fs1 => (0, { st with fs := fs1 })
    | Except.error e =>
      if e = Errno.EEXIST then (0, st)
      else (-1, { st with console := st.console ++ [Msg.perror "mkdir".toList e] })

/-- Lines 65–70. -/
def run_cmd_or_report (w : World) (st : State) (cmd : CStr) : State :=
  let ret := w.system st.cmds.length cmd
  let st1 := { st with cmds := st.cmds ++ [cmd] }
  if ret ≠ 0 then { st1 with console := st1.console ++ [Msg.cmd_failed ret cmd] }
  else st1

/-- Lines 98–143: the four jobs of one file. -/
def process_file (w : World) (st : State) (name base : CStr) : State :=
  let st := run_cmd_or_report w st (cmd_left name base)
  let st := run_cmd_or_report w st (cmd_mid name base)
  let st := run_cmd_or_report w st (cmd_right name base)
  run_cmd_or_report w st (cmd_rot name base)

/-- Lines 81–146: the `readdir` loop; `i` is the number of the entry. -/
def main_loop (w : World) : List Dirent → Nat → State → State
  | [], _, st => st
  | ent :: rest, i, st =>
    if ent.d_type = DT_DIR then main_loop w rest (i + 1) st
    else
      let name := ent.d_name
      if !is_video_file name then main_loop w rest (i + 1) st
      else
        match basename_no_ext (w.malloc_ok i) name with
        | none =>
          main_loop w rest (i + 1) { st with console := st.console ++ [Msg.oom name] }
        | some base => main_loop w rest (i + 1) (process_file w st name base)

/-- State at program start: the filesystem of the world, nothing run or
printed yet. -/
def initial_state (w : World) : State :=
  { fs := w.fs, cmds := [], console := [] }

/-- Lines 72–151: exit status and final state. -/
def main (w : World) : Int × State :=
  let st0 := initial_state w
  let r1 := ensure_dir st0 PORTRAIT_DIR
  if r1.1 ≠ 0 then (1, r1.2)
  else
    let r2 := ensure_dir r1.2 ROTATE_DIR
    if r2.1 ≠ 0 then (1, r2.2)
    else
      match w.opendir_dot with
      | Except.error e =>
        (1, { r2.2 with console := r2.2.console ++ [Msg.perror "opendir".toList e] })
      | Except.ok entries =>
        let st := main_loop w entries 0 r2.2
        (0, { st with console := st.console ++ [Msg.done PORTRAIT_DIR ROTATE_DIR] })

/-! ## Filter expressions -/

/-- Arithmetic expressions of the filter strings of lines 98–100. -/
inductive FExpr
  | num (n : Nat)
  | iw
  | ih
  | mul (a b : FExpr)
  | div (a b : FExpr)
  | sub (a b : FExpr)
  | floor (a : FExpr)
  | paren (a : FExpr)
  deriving DecidableEq, Repr

/-- The text of an expression, as it stands in a filter string. -/
def FExpr.render : FExpr → CStr
  | FExpr.num n => (Nat.repr n).toList
  | FExpr.iw => "iw".toList
  | FExpr.ih => "ih".toList
  | FExpr.mul a b => a.render ++ "*".toList ++ b.render
  | FExpr.div a b => a.render ++ "/".toList ++ b.render
  | FExpr.sub a b => a.render ++ "-".toList ++ b.render
  | FExpr.floor a => "floor(".toList ++ a.render ++ ")".toList
  | FExpr.paren a => "(".toList ++ a.render ++ ")".toList

/-- Value of an expression for an input of width `iw` and height `ih`, read
with integer arithmetic: division truncates, `floor` of an integer is that
integer. -/
def FExpr.eval (iw ih : Int) : FExpr → Int
  | FExpr.num n => (n : Int)
  | FExpr.iw => iw
  | FExpr.ih => ih
  | FExpr.mul a b => a.eval iw ih * b.eval iw ih
  | FExpr.div a b => Int.tdiv (a.eval iw ih) (b.eval iw ih)
  | FExpr.sub a b => a.eval iw ih - b.eval iw ih
  | FExpr.floor a => a.eval iw ih
  | FExpr.paren a => a.eval iw ih

/-- A `crop=w:h:x:y` filter. -/
structure CropFilter where
  w : FExpr
  h : FExpr
  x : FExpr
  y : FExpr
  deriving DecidableEq, Repr

/-- The text of a crop filter. -/
def CropFilter.render (c : CropFilter) : CStr :=
  "crop=".toList ++ c.w.render ++ ":".toList ++ c.h.render ++ ":".toList ++ c.x.render
    ++ ":".toList ++ c.y.render

/-- A crop window: width, height and origin. -/
structure Window where
  w : Int
  h : Int
  x : Int
  y : Int
  deriving DecidableEq, Repr

/-- The window a crop filter selects in an `iw`×`ih` frame. -/
def CropFilter.eval (iw ih : Int) (c : CropFilter) : Window :=
  { w := c.w.eval iw ih, h := c.h.eval iw ih, x := c.x.eval iw ih, y := c.y.eval iw ih }

/-- The expression `floor(ih*9/16)`. -/
def out_w : FExpr :=
  FExpr.floor (FExpr.div (FExpr.mul FExpr.ih (FExpr.num 9)) (FExpr.num 16))

/-- The filter of line 98. -/
def crop_left : CropFilter :=
  { w := out_w, h := FExpr.ih, x := FExpr.num 0, y := FExpr.num 0 }

/-- The filter of line 99. -/
def crop_mid : CropFilter :=
  { w := out_w, h := FExpr.ih,
    x := FExpr.div (FExpr.paren (FExpr.sub FExpr.iw out_w)) (FExpr.num 2),
    y := FExpr.num 0 }

/-- The filter of line 100. -/
def crop_right : CropFilter :=
  { w := out_w, h := FExpr.ih, x := FExpr.paren (FExpr.sub FExpr.iw out_w),
    y := FExpr.num 0 }

/-- The window lies inside an `iw`×`ih` frame horizontally. -/
def Window.inside (win : Window) (iw : Int) : Prop :=
  0 ≤ win.x ∧ win.x + win.w ≤ iw

/-- The loop of `has_ext` (lines 25–30) together with the offsets into `name`
it reads: `dot[i]` is `name[off + i]` with `off = ln - le`.  Offsets are
integers so that a read before the start of the string would show. -/
def has_ext_loop_traced (off : Int) (dot ext : CStr) : Nat → Nat → Bool × List Int
  | 0, _ => (true, [])
  | n + 1, i =>
    if to_lower_ascii (dot.getD i '\x00') ≠ to_lower_ascii (ext.getD i '\x00') then
      (false, [off + i])
    else
      let r := has_ext_loop_traced off dot ext n (i + 1)
      (r.1, (off + i) :: r.2)

/-- Lines 20–33 together with the offsets into `name` that are read, in order:
nothing on the early return of line 22, the loop's reads, and `ln - le - 1` when
the test `ln > le` of line 32 lets the second operand be evaluated. -/
def has_ext_traced (name ext : CStr) : Bool × List Int :=
  let ln := name.length
  let le := ext.length
  if ln < le + 1 then (false, [])
  else
    let off : Int := (ln : Int) - (le : Int)
    let r := has_ext_loop_traced off (name.drop (ln - le)) ext le 0
    if r.1 = false then (false, r.2)
    else if ln > le then
      (name.getD (ln - le - 1) '\x00' == '.', r.2 ++ [(ln : Int) - (le : Int) - 1])
    else (false, r.2)

/-! ## Reference definitions (the specification's wording) -/

/-- Two strings are equal up to the case of their ASCII letters. -/
def eq_ignore_case (a b : CStr) : Prop :=
  a.map Char.toLower = b.map Char.toLower

/-- The name ends with a literal dot followed by one of the tokens `mp4`,
`mov`, `mkv`, the token compared case-insensitively. -/
def ends_with_dot_token (name : CStr) : Prop :=
  ∃ stem tok : CStr, name = stem ++ '.' :: tok ∧
    (eq_ignore_case tok "mp4".toList ∨ eq_ignore_case tok "mov".toList
      ∨ eq_ignore_case tok "mkv".toList)

/-- At least one character precedes the final dot of the name. -/
def has_stem_before_final_dot (name : CStr) : Prop :=
  ∃ (c : Char) (stem ext : CStr), name = (c :: stem) ++ '.' :: ext ∧ '.' ∉ ext

/-- The part of `s` after its last `c`; the whole of `s` when `c` does not
occur. -/
def after_last (c : Char) (s : CStr) : CStr :=
  (s.reverse.takeWhile (fun x => x != c)).reverse

/-- The characters of `s` before its last `c`; the whole of `s` when `c` does
not occur. -/
def before_last (c : Char) (s : CStr) : CStr :=
  if c ∈ s then (s.reverse.dropWhile (fun x => x != c)).tail.reverse else s

/-- Reference definition of the base name: after the last `/`, before the
last `.` of that part. -/
def basename_ref (name : CStr) : CStr :=
  before_last '.' (after_last '/' name)

/-- The four jobs of a file. -/
inductive Variant
  | LeftCrop
  | MidCrop
  | RightCrop
  | RotateLeft
  deriving DecidableEq, Repr

/-- The filter of each variant, as the specification lists them. -/
def Variant.filter_text : Variant → CStr
  | Variant.LeftCrop => "crop=floor(ih*9/16):ih:0:0".toList
  | Variant.MidCrop => "crop=floor(ih*9/16):ih:(iw-floor(ih*9/16))/2:0".toList
  | Variant.RightCrop => "crop=floor(ih*9/16):ih:(iw-floor(ih*9/16)):0".toList
  | Variant.RotateLeft => "transpose=2".toList

/-- The output path of each variant for base name `b`, as the specification
gives it: root, `/`, base, suffix, `.mp4`. -/
def Variant.out_path (b : CStr) : Variant → CStr
  | Variant.LeftCrop => "portrait_clips/".toList ++ b ++ "_left_9x16.mp4".toList
  | Variant.MidCrop => "portrait_clips/".toList ++ b ++ "_mid_9x16.mp4".toList
  | Variant.RightCrop => "portrait_clips/".toList ++ b ++ "_right_9x16.mp4".toList
  | Variant.RotateLeft => "rotated_left/".toList ++ b ++ "_rotated_left_90.mp4".toList

/-- The command line of a job, as the specification writes it. -/
def spec_cmd (name filter out : CStr) : CStr :=
  "ffmpeg -y -i \"".toList ++ name ++ "\" -map 0:v:0 -map 0:a? -vf \"".toList ++ filter
    ++ "\" -c:v libx264 -preset faster -crf 18 -c:a copy -movflags +faststart \"".toList
    ++ out ++ "\"".toList

/-- The four commands the specification prescribes for a source file, in
order. -/
def spec_jobs (name : CStr) : List CStr :=
  [Variant.LeftCrop, Variant.MidCrop, Variant.RightCrop, Variant.RotateLeft].map
    (fun v => spec_cmd name v.filter_text (v.out_path (basename_ref name)))

/-- The entries of a listing that are not flagged as directories and whose
name `is_video_file` accepts, in listing order. -/
def selected (entries : List Dirent) : List Dirent :=
  entries.filter (fun e => e.d_type != DT_DIR && is_video_file e.d_name)

/-- The commands `main` builds for a file name whose base name was allocated:
left, mid, right, rotation. -/
def file_cmds (name : CStr) : List CStr :=
  match basename_no_ext true name with
  | some base => [cmd_left name base, cmd_mid name base, cmd_right name base, cmd_rot name base]
  | none => []

/-- Preparing the portrait output directory fails (line 74). -/
def portrait_fails (w : World) : Prop :=
  (ensure_dir (initial_state w) PORTRAIT_DIR).1 ≠ 0

/-- Preparing the rotation output directory fails (line 75), in the state the
first preparation leaves. -/
def rotate_fails (w : World) : Prop :=
  (ensure_dir (ensure_dir (initial_state w) PORTRAIT_DIR).2 ROTATE_DIR).1 ≠ 0

instance (w : World) : Decidable (portrait_fails w) :=
  inferInstanceAs (Decidable (_ ≠ _))

instance (w : World) : Decidable (rotate_fails w) :=
  inferInstanceAs (Decidable (_ ≠ _))

/-- Opening the working directory fails (lines 77–78). -/
def opendir_fails (w : World) : Prop :=
  ∃ e, w.opendir_dot = Except.error e

/-- The world `w` with the statuses of `system` replaced. -/
def World.with_system (w : World) (sys : Nat → CStr → Int) : World :=
  { w with system := sys }

/-- Value of `DT_REG` in `<dirent.h>`: a regular file. -/
def DT_REG : Nat := 8

/-- The listing of the specification's example: regular files `a.mp4`,
`b.MOV`, `readme.txt` and a directory `c.mkv`. -/
def example_listing : List Dirent :=
  [{ d_name := "a.mp4".toList, d_type := DT_REG },
   { d_name := "b.MOV".toList, d_type := DT_REG },
   { d_name := "readme.txt".toList, d_type := DT_REG },
   { d_name := "c.mkv".toList, d_type := DT_DIR }]

/-- An empty filesystem in which directories can be created. -/
def empty_fs : FS :=
  { node := fun _ => Node.absent, mkdir_denied := fun _ => false }

/-- A run over `example_listing` in which every allocation succeeds and every
command returns status 0. -/
def example_world : World :=
  { fs := empty_fs,
    opendir_dot := Except.ok example_listing,
    malloc_ok := fun _ => true,
    system := fun _ _ => 0 }

/-- A filesystem in which `portrait_clips` is a regular file. -/
def blocked_fs : FS :=
  { node := fun p => if p = PORTRAIT_DIR then Node.file else Node.absent,
    mkdir_denied := fun _ => false }

/-- The example run on a filesystem where the portrait directory cannot be
prepared. -/
def blocked_world : World :=
  { example_world with fs := blocked_fs }

/-- Statuses under which every command fails. -/
def all_fail : Nat → CStr → Int :=
  fun _ _ => 256

/-- A filesystem in which `portrait_clips` is a symbolic link whose target does
not exist. -/
def dangling_fs : FS :=
  { node := fun p => if p = PORTRAIT_DIR then Node.dangling else Node.absent,
    mkdir_denied := fun _ => false }

/-- The example run on a filesystem where `portrait_clips` is a dangling
symbolic link. -/
def dangling_world : World :=
  { example_world with fs := dangling_fs }

/-- The output paths `main` builds for a file name whose base name was
allocated: left, mid, right, rotation. -/
def file_out_paths (name : CStr) : List CStr :=
  match basename_no_ext true name with
  | some base => [out_left base, out_mid base, out_right base, out_rot base]
  | none => []

/-- The double quote character. -/
def DQUOTE : Char := Char.ofNat 34

/-- The characters that are special inside a double-quoted shell word: double
quote, backquote, dollar sign, backslash. -/
def shell_special : List Char :=
  [Char.ofNat 34, Char.ofNat 96, Char.ofNat 36, Char.ofNat 92]

/-- The string contains none of the characters special inside a double-quoted
shell word. -/
def shell_safe (s : CStr) : Prop :=
  ∀ c ∈ shell_special, c ∉ s

instance (s : CStr) : Decidable (shell_safe s) :=
  inferInstanceAs (Decidable (∀ c ∈ shell_special, c ∉ s))

/-- The fixed text every command starts with, up to and including the double
quote that opens the input file name (lines 111, 119, 127, 139). -/
def cmd_head : CStr := "ffmpeg -y -i \"".toList

/-- The text of a command after the file name: the double quote that closes
it, the stream maps, the filter and the codec options, and the quoted output
path. -/
def cmd_tail (filter out : CStr) : CStr :=
  "\" -map 0:v:0 -map 0:a? -vf \"".toList ++ filter
    ++ "\" -c:v libx264 -preset faster -crf 18 -c:a copy -movflags +faststart \"".toList
    ++ out ++ "\"".toList

/-- The text of a command string between the double quote after `-i` and the
next double quote. -/
def quoted_input (cmd : CStr) : CStr :=
  (cmd.drop cmd_head.length).takeWhile (fun c => c != DQUOTE)

/-! ## Lemmas on `has_ext` and `is_video_file` -/

theorem char_le_iff (a b : Char) : a ≤ b ↔ a.toNat ≤ b.toNat := Iff.rfl

theorem to_lower_ascii_eq (c : Char) : to_lower_ascii c = Char.toLower c := by
  unfold to_lower_ascii Char.toLower
  simp only [char_le_iff]
  have hA : 'A'.toNat = 65 := rfl
  have hZ : 'Z'.toNat = 90 := rfl
  have ha : 'a'.toNat = 97 := rfl
  rw [hA, hZ, ha]
  by_cases h : 65 ≤ c.toNat ∧ c.toNat ≤ 90
  · have h2 : c.toNat ≥ 65 ∧ c.toNat ≤ 90 := h
    rw [if_pos h]
    simp only [h2, and_self, if_true]
    congr 1
    omega
  · have h2 : ¬ (c.toNat ≥ 65 ∧ c.toNat ≤ 90) := h
    rw [if_neg h]
    simp only [h2, if_false]

theorem has_ext_loop_iff (dot ext : CStr) (n i : Nat) :
    has_ext_loop dot ext n i = true ↔
      ∀ j, i ≤ j → j < i + n →
        to_lower_ascii (dot.getD j '\x00') = to_lower_ascii (ext.getD j '\x00') := by
  induction n generalizing i with
  | zero =>
    simp only [has_ext_loop, true_iff]
    intro j h1 h2
    omega
  | succ n ih =>
    simp only [has_ext_loop]
    by_cases hc : to_lower_ascii (dot.getD i '\x00') = to_lower_ascii (ext.getD i '\x00')
    · simp only [ne_eq, hc, not_true_eq_false, if_false, ih]
      constructor
      · intro h j h1 h2
        by_cases hj : j = i
        · subst hj; exact hc
        · exact h j (by omega) (by omega)
      · intro h j h1 h2
        exact h j (by omega) (by omega)
    · simp only [ne_eq, hc, not_false_eq_true, if_true]
      constructor
      · intro h; exact absurd h (by simp)
      · intro h
        exact absurd (h i (Nat.le_refl i) (by omega)) hc

theorem map_eq_of_getD (f : Char → Char) (a b : CStr) (hlen : a.length = b.length)
    (h : ∀ j, j < a.length → f (a.getD j '\x00') = f (b.getD j '\x00')) :
    a.map f = b.map f := by
  apply List.ext_getElem
  · simp [hlen]
  · intro j h1 h2
    simp only [List.length_map] at h1 h2
    have := h j h1
    simp only [List.getD_eq_getElem?_getD, List.getElem?_eq_getElem h1,
      List.getElem?_eq_getElem h2, Option.getD_some] at this
    simpa using this

theorem getD_of_map_eq (f : Char → Char) (a b : CStr) (h : a.map f = b.map f) (j : Nat)
    (hj : j < a.length) : f (a.getD j '\x00') = f (b.getD j '\x00') := by
  have hlen : a.length = b.length := by
    have := congrArg List.length h
    simpa using this
  have hj2 : j < b.length := hlen ▸ hj
  have h1 : (a.map f)[j]? = (b.map f)[j]? := by rw [h]
  simp only [List.getElem?_map, List.getElem?_eq_getElem hj, List.getElem?_eq_getElem hj2,
    Option.map_some'] at h1
  simp only [List.getD_eq_getElem?_getD, List.getElem?_eq_getElem hj,
    List.getElem?_eq_getElem hj2, Option.getD_some]
  exact Option.some.inj h1

theorem split_at_getD (l : CStr) (k : Nat) (c : Char) (hk : k < l.length)
    (h : l.getD k '\x00' = c) : l = l.take k ++ c :: l.drop (k + 1) := by
  have h3 : l.getD k '\x00' = l[k] := by
    simp [List.getD_eq_getElem?_getD, List.getElem?_eq_getElem hk]
  rw [← h, h3, List.getElem_cons_drop l k hk]
  exact (List.take_append_drop _ _).symm

theorem has_ext_iff (name ext : CStr) :
    has_ext name ext = true ↔
      ∃ stem tok : CStr, name = stem ++ '.' :: tok ∧
        tok.map to_lower_ascii = ext.map to_lower_ascii := by
  constructor
  · intro h
    unfold has_ext at h
    simp only at h
    by_cases hlen : name.length < ext.length + 1
    · simp [hlen] at h
    · simp only [hlen, if_false] at h
      by_cases hl : has_ext_loop (name.drop (name.length - ext.length)) ext ext.length 0 = false
      · simp [hl] at h
      · have hl2 : has_ext_loop (name.drop (name.length - ext.length)) ext ext.length 0 = true := by
          simpa using hl
        rw [hl2] at h
        simp only [Bool.true_eq_false, if_false, Bool.and_eq_true, decide_eq_true_eq,
          beq_iff_eq] at h
        rw [has_ext_loop_iff] at hl2
        refine ⟨name.take (name.length - ext.length - 1),
          name.drop (name.length - ext.length), ?_, ?_⟩
        · have hk : name.length - ext.length - 1 < name.length := by omega
          have h4 : name.length - ext.length = (name.length - ext.length - 1) + 1 := by omega
          rw [h4]
          exact split_at_getD name _ '.' hk h.2
        · apply map_eq_of_getD
          · simp only [List.length_drop]; omega
          · intro j hj
            simp only [List.length_drop] at hj
            exact hl2 j (Nat.zero_le j) (by omega)
  · rintro ⟨stem, tok, rfl, hmap⟩
    have hlen : tok.length = ext.length := by
      have := congrArg List.length hmap
      simpa using this
    unfold has_ext
    simp only [List.length_append, List.length_cons]
    have h1 : ¬ (stem.length + (tok.length + 1) < ext.length + 1) := by omega
    have h2 : stem.length + (tok.length + 1) - ext.length = stem.length + 1 := by omega
    have h3 : (stem ++ '.' :: tok).drop (stem.length + 1) = tok := by
      rw [List.drop_append_eq_append_drop]
      simp
    have h4 : has_ext_loop tok ext ext.length 0 = true := by
      rw [has_ext_loop_iff]
      intro j _ hj
      exact getD_of_map_eq _ _ _ hmap j (by omega)
    simp only [h1, if_false, h2, h3, h4, Bool.true_eq_false, Nat.add_sub_cancel]
    simp only [Bool.and_eq_true, decide_eq_true_eq, beq_iff_eq]
    constructor
    · omega
    · rw [List.getD_eq_getElem?_getD, List.getElem?_append_right (Nat.le_refl _)]
      simp

theorem is_video_file_iff_ends (name : CStr) :
    is_video_file name = true ↔ ends_with_dot_token name := by
  unfold is_video_file ends_with_dot_token eq_ignore_case
  simp only [Bool.or_eq_true, has_ext_iff]
  have hfun : to_lower_ascii = Char.toLower := funext to_lower_ascii_eq
  rw [hfun]
  constructor
  · rintro ((⟨s, t, h1, h2⟩ | ⟨s, t, h1, h2⟩) | ⟨s, t, h1, h2⟩)
    · exact ⟨s, t, h1, Or.inl h2⟩
    · exact ⟨s, t, h1, Or.inr (Or.inl h2)⟩
    · exact ⟨s, t, h1, Or.inr (Or.inr h2)⟩
  · rintro ⟨s, t, h1, (h2 | h2 | h2)⟩
    · exact Or.inl (Or.inl ⟨s, t, h1, h2⟩)
    · exact Or.inl (Or.inr ⟨s, t, h1, h2⟩)
    · exact Or.inr ⟨s, t, h1, h2⟩

/-- Every accepted name is a stem, a dot and three more characters. -/
theorem is_video_file_shape (name : CStr) (h : is_video_file name = true) :
    ∃ stem tok : CStr, name = stem ++ '.' :: tok ∧ tok.length = 3 := by
  unfold is_video_file at h
  simp only [Bool.or_eq_true, has_ext_iff] at h
  rcases h with (⟨s, t, h1, h2⟩ | ⟨s, t, h1, h2⟩) | ⟨s, t, h1, h2⟩
  all_goals
    refine ⟨s, t, h1, ?_⟩
    have := congrArg List.length h2
    simpa using this

/-! ## Lemmas on `strrchr` and `basename_no_ext` -/

theorem strrchr_loop_not_mem (c : Char) (s : CStr) (i : Nat) (last : Option Nat)
    (h : c ∉ s) : strrchr_loop c s i last = last := by
  induction s generalizing i last with
  | nil => rfl
  | cons x xs ih =>
    have hx : x ≠ c := fun e => h (by simp [e])
    have hxs : c ∉ xs := fun e => h (by simp [e])
    simp only [strrchr_loop, hx, if_false]
    exact ih _ _ hxs

theorem strrchr_loop_last (c : Char) (p t : CStr) (i : Nat) (last : Option Nat)
    (h : c ∉ t) : strrchr_loop c (p ++ c :: t) i last = some (i + p.length) := by
  induction p generalizing i last with
  | nil =>
    simp only [List.nil_append, strrchr_loop, if_true, List.length_nil, Nat.add_zero]
    exact strrchr_loop_not_mem c t _ _ h
  | cons x xs ih =>
    show strrchr_loop c (xs ++ c :: t) (i + 1) (if x = c then some i else last) = _
    rw [ih, List.length_cons]
    congr 1
    omega

theorem last_split (c : Char) (s : CStr) (h : c ∈ s) :
    ∃ p t : CStr, s = p ++ c :: t ∧ c ∉ t := by
  have hr : c ∈ s.reverse := by simpa using h
  obtain ⟨a, b, hab, hna⟩ := List.eq_append_cons_of_mem hr
  refine ⟨b.reverse, a.reverse, ?_, by simpa using hna⟩
  have := congrArg List.reverse hab
  simpa using this

theorem after_last_not_mem (c : Char) (s : CStr) (h : c ∉ s) : after_last c s = s := by
  unfold after_last
  have : s.reverse.takeWhile (fun x => x != c) = s.reverse := by
    rw [List.takeWhile_eq_self_iff]
    intro x hx
    have hx2 : x ∈ s := by simpa using hx
    simp only [bne_iff_ne, ne_eq]
    rintro rfl
    exact h hx2
  rw [this, List.reverse_reverse]

theorem after_last_split (c : Char) (p t : CStr) (h : c ∉ t) :
    after_last c (p ++ c :: t) = t := by
  unfold after_last
  have hall : ∀ a ∈ t.reverse, (fun x => x != c) a = true := by
    intro x hx
    have hx2 : x ∈ t := by simpa using hx
    simp only [bne_iff_ne, ne_eq]
    rintro rfl
    exact h hx2
  rw [List.reverse_append, List.reverse_cons, List.append_assoc,
    List.takeWhile_append_of_pos hall]
  simp

theorem before_last_split (c : Char) (u v : CStr) (h : c ∉ v) :
    before_last c (u ++ c :: v) = u := by
  unfold before_last
  have hall : ∀ a ∈ v.reverse, (fun x => x != c) a = true := by
    intro x hx
    have hx2 : x ∈ v := by simpa using hx
    simp only [bne_iff_ne, ne_eq]
    rintro rfl
    exact h hx2
  have hmem : c ∈ u ++ c :: v := by simp
  rw [if_pos hmem, List.reverse_append, List.reverse_cons, List.append_assoc,
    List.dropWhile_append_of_pos hall]
  simp

theorem strrchr_none (c : Char) (s : CStr) (h : c ∉ s) : strrchr s c = none :=
  strrchr_loop_not_mem c s 0 none h

theorem strrchr_split (c : Char) (p t : CStr) (h : c ∉ t) :
    strrchr (p ++ c :: t) c = some p.length := by
  unfold strrchr
  rw [strrchr_loop_last c p t 0 none h, Nat.zero_add]

theorem base_part_eq (filename : CStr) :
    (match strrchr filename '/' with
      | some i => filename.drop (i + 1)
      | none => filename) = after_last '/' filename := by
  by_cases h : '/' ∈ filename
  · obtain ⟨p, t, rfl, ht⟩ := last_split _ _ h
    rw [strrchr_split _ p t ht, after_last_split _ p t ht]
    simp
  · rw [strrchr_none _ _ h, after_last_not_mem _ _ h]

theorem stem_part_eq (base : CStr) :
    base.take (match strrchr base '.' with
      | some j => j
      | none => base.length) = before_last '.' base := by
  by_cases h : '.' ∈ base
  · obtain ⟨u, v, rfl, hv⟩ := last_split _ _ h
    rw [strrchr_split _ u v hv, before_last_split _ u v hv]
    simp
  · rw [strrchr_none _ _ h]
    simp [before_last, h]

theorem basename_no_ext_eq (ok : Bool) (filename : CStr) :
    basename_no_ext ok filename = if ok then some (basename_ref filename) else none := by
  unfold basename_no_ext basename_ref
  simp only [base_part_eq, stem_part_eq]

/-! ## Lemmas on formatting -/

theorem after_last_length (c : Char) (s : CStr) : (after_last c s).length ≤ s.length := by
  unfold after_last
  rw [List.length_reverse]
  have := (List.takeWhile_sublist (fun x => x != c) (l := s.reverse)).length_le
  simpa using this

theorem before_last_length (c : Char) (s : CStr) : (before_last c s).length ≤ s.length := by
  unfold before_last
  split
  · rw [List.length_reverse]
    have h1 := (List.tail_sublist (s.reverse.dropWhile (fun x => x != c))).length_le
    have h2 := (List.dropWhile_sublist (fun x => x != c) (l := s.reverse)).length_le
    rw [List.length_reverse] at h2
    omega
  · exact Nat.le_refl _

theorem basename_ref_length (name : CStr) : (basename_ref name).length ≤ name.length :=
  Nat.le_trans (before_last_length _ _) (after_last_length _ _)

theorem basename_no_ext_length (ok : Bool) (name b : CStr)
    (h : basename_no_ext ok name = some b) : b.length ≤ name.length := by
  rw [basename_no_ext_eq] at h
  by_cases hok : ok = true
  · simp only [hok, if_true, Option.some.injEq] at h
    rw [← h]
    exact basename_ref_length name
  · simp [hok] at h

theorem snprintf_of_short (size : Nat) (fmt : CStr) (args : List CStr)
    (h : (format fmt args).length < size) :
    snprintf size fmt args = format fmt args := by
  unfold snprintf
  exact List.take_of_length_le (by omega)

theorem out_left_eq (b : CStr) (h : b.length ≤ NAME_MAX) :
    out_left b = Variant.LeftCrop.out_path b := by
  have hf : format "%s/%s_left_9x16.mp4".toList [PORTRAIT_DIR, b]
      = "portrait_clips/".toList ++ b ++ "_left_9x16.mp4".toList := rfl
  unfold out_left Variant.out_path
  rw [snprintf_of_short, hf]
  rw [hf]
  simp only [List.length_append, NAME_MAX, OUT_SIZE] at *
  have h1 : "portrait_clips/".toList.length = 15 := rfl
  have h2 : "_left_9x16.mp4".toList.length = 14 := rfl
  omega

theorem out_mid_eq (b : CStr) (h : b.length ≤ NAME_MAX) :
    out_mid b = Variant.MidCrop.out_path b := by
  have hf : format "%s/%s_mid_9x16.mp4".toList [PORTRAIT_DIR, b]
      = "portrait_clips/".toList ++ b ++ "_mid_9x16.mp4".toList := rfl
  unfold out_mid Variant.out_path
  rw [snprintf_of_short, hf]
  rw [hf]
  simp only [List.length_append, NAME_MAX, OUT_SIZE] at *
  have h1 : "portrait_clips/".toList.length = 15 := rfl
  have h2 : "_mid_9x16.mp4".toList.length = 13 := rfl
  omega

theorem out_right_eq (b : CStr) (h : b.length ≤ NAME_MAX) :
    out_right b = Variant.RightCrop.out_path b := by
  have hf : format "%s/%s_right_9x16.mp4".toList [PORTRAIT_DIR, b]
      = "portrait_clips/".toList ++ b ++ "_right_9x16.mp4".toList := rfl
  unfold out_right Variant.out_path
  rw [snprintf_of_short, hf]
  rw [hf]
  simp only [List.length_append, NAME_MAX, OUT_SIZE] at *
  have h1 : "portrait_clips/".toList.length = 15 := rfl
  have h2 : "_right_9x16.mp4".toList.length = 15 := rfl
  omega

theorem out_rot_eq (b : CStr) (h : b.length ≤ NAME_MAX) :
    out_rot b = Variant.RotateLeft.out_path b := by
  have hf : format "%s/%s_rotated_left_90.mp4".toList [ROTATE_DIR, b]
      = "rotated_left/".toList ++ b ++ "_rotated_left_90.mp4".toList := rfl
  unfold out_rot Variant.out_path
  rw [snprintf_of_short, hf]
  rw [hf]
  simp only [List.length_append, NAME_MAX, OUT_SIZE] at *
  have h1 : "rotated_left/".toList.length = 13 := rfl
  have h2 : "_rotated_left_90.mp4".toList.length = 20 := rfl
  omega

theorem out_path_length (b : CStr) (v : Variant) : (v.out_path b).length ≤ b.length + 33 := by
  cases v <;> simp only [Variant.out_path, List.length_append]
  · have h1 : "portrait_clips/".toList.length = 15 := rfl
    have h2 : "_left_9x16.mp4".toList.length = 14 := rfl
    omega
  · have h1 : "portrait_clips/".toList.length = 15 := rfl
    have h2 : "_mid_9x16.mp4".toList.length = 13 := rfl
    omega
  · have h1 : "portrait_clips/".toList.length = 15 := rfl
    have h2 : "_right_9x16.mp4".toList.length = 15 := rfl
    omega
  · have h1 : "rotated_left/".toList.length = 13 := rfl
    have h2 : "_rotated_left_90.mp4".toList.length = 20 := rfl
    omega

theorem format_crop_cmd (name vf out : CStr) :
    format crop_cmd_fmt [name, vf, out] = spec_cmd name vf out := by
  have h : format crop_cmd_fmt [name, vf, out]
      = "ffmpeg -y -i \"".toList ++ (name ++ ("\" -map 0:v:0 -map 0:a? -vf \"".toList ++ (vf
        ++ ("\" -c:v libx264 -preset faster -crf 18 -c:a copy -movflags +faststart \"".toList
        ++ (out ++ "\"".toList))))) := rfl
  rw [h]
  unfold spec_cmd
  simp only [List.append_assoc]

theorem format_rot_cmd (name out : CStr) :
    format rot_cmd_fmt [name, out] = spec_cmd name Variant.RotateLeft.filter_text out := by
  have h : format rot_cmd_fmt [name, out]
      = "ffmpeg -y -i \"".toList ++ (name ++ ("\" -map 0:v:0 -map 0:a? -vf \"".toList
        ++ ("transpose=2".toList
        ++ ("\" -c:v libx264 -preset faster -crf 18 -c:a copy -movflags +faststart \"".toList
        ++ (out ++ "\"".toList))))) := rfl
  rw [h]
  unfold spec_cmd Variant.filter_text
  simp only [List.append_assoc]

theorem spec_cmd_length (name vf out : CStr) :
    (spec_cmd name vf out).length = name.length + vf.length + out.length + 113 := by
  unfold spec_cmd
  simp only [List.length_append]
  have h1 : "ffmpeg -y -i \"".toList.length = 14 := rfl
  have h2 : "\" -map 0:v:0 -map 0:a? -vf \"".toList.length = 28 := rfl
  have h3 : "\" -c:v libx264 -preset faster -crf 18 -c:a copy -movflags +faststart \"".toList.length
      = 70 := rfl
  have h4 : "\"".toList.length = 1 := rfl
  omega

theorem filter_text_length (v : Variant) : v.filter_text.length ≤ 46 := by
  cases v <;> decide

theorem cmd_left_eq (name b : CStr) (hn : name.length ≤ NAME_MAX) (hb : b.length ≤ NAME_MAX) :
    cmd_left name b
      = spec_cmd name Variant.LeftCrop.filter_text (Variant.LeftCrop.out_path b) := by
  have hl := out_path_length b Variant.LeftCrop
  have hv := filter_text_length Variant.LeftCrop
  unfold cmd_left
  rw [out_left_eq b hb]
  have hvf : vf_left = Variant.LeftCrop.filter_text := rfl
  rw [hvf, snprintf_of_short, format_crop_cmd]
  rw [format_crop_cmd, spec_cmd_length]
  simp only [NAME_MAX, CMD_SIZE] at *
  omega

theorem cmd_mid_eq (name b : CStr) (hn : name.length ≤ NAME_MAX) (hb : b.length ≤ NAME_MAX) :
    cmd_mid name b
      = spec_cmd name Variant.MidCrop.filter_text (Variant.MidCrop.out_path b) := by
  have hl := out_path_length b Variant.MidCrop
  have hv := filter_text_length Variant.MidCrop
  unfold cmd_mid
  rw [out_mid_eq b hb]
  have hvf : vf_mid = Variant.MidCrop.filter_text := rfl
  rw [hvf, snprintf_of_short, format_crop_cmd]
  rw [format_crop_cmd, spec_cmd_length]
  simp only [NAME_MAX, CMD_SIZE] at *
  omega

theorem cmd_right_eq (name b : CStr) (hn : name.length ≤ NAME_MAX) (hb : b.length ≤ NAME_MAX) :
    cmd_right name b
      = spec_cmd name Variant.RightCrop.filter_text (Variant.RightCrop.out_path b) := by
  have hl := out_path_length b Variant.RightCrop
  have hv := filter_text_length Variant.RightCrop
  unfold cmd_right
  rw [out_right_eq b hb]
  have hvf : vf_right = Variant.RightCrop.filter_text := rfl
  rw [hvf, snprintf_of_short, format_crop_cmd]
  rw [format_crop_cmd, spec_cmd_length]
  simp only [NAME_MAX, CMD_SIZE] at *
  omega

theorem cmd_rot_eq (name b : CStr) (hn : name.length ≤ NAME_MAX) (hb : b.length ≤ NAME_MAX) :
    cmd_rot name b
      = spec_cmd name Variant.RotateLeft.filter_text (Variant.RotateLeft.out_path b) := by
  have hl := out_path_length b Variant.RotateLeft
  have hv := filter_text_length Variant.RotateLeft
  unfold cmd_rot
  rw [out_rot_eq b hb]
  rw [snprintf_of_short, format_rot_cmd]
  rw [format_rot_cmd, spec_cmd_length]
  simp only [NAME_MAX, CMD_SIZE] at *
  omega

theorem file_cmds_eq_spec (name : CStr) (hn : name.length ≤ NAME_MAX) :
    file_cmds name = spec_jobs name := by
  have hb : (basename_ref name).length ≤ NAME_MAX :=
    Nat.le_trans (basename_ref_length name) hn
  unfold file_cmds spec_jobs
  rw [basename_no_ext_eq]
  simp only [if_true, List.map_cons, List.map_nil]
  rw [cmd_left_eq name _ hn hb, cmd_mid_eq name _ hn hb, cmd_right_eq name _ hn hb,
    cmd_rot_eq name _ hn hb]

/-! ## Lemmas on `main` -/

theorem run_cmd_or_report_cmds (w : World) (st : State) (cmd : CStr) :
    (run_cmd_or_report w st cmd).cmds = st.cmds ++ [cmd] := by
  unfold run_cmd_or_report
  simp only
  split <;> rfl

theorem run_cmd_or_report_fs (w : World) (st : State) (cmd : CStr) :
    (run_cmd_or_report w st cmd).fs = st.fs := by
  unfold run_cmd_or_report
  simp only
  split <;> rfl

theorem process_file_cmds (w : World) (st : State) (name base : CStr) :
    (process_file w st name base).cmds
      = st.cmds ++ [cmd_left name base, cmd_mid name base, cmd_right name base,
          cmd_rot name base] := by
  unfold process_file
  simp only [run_cmd_or_report_cmds, List.append_assoc, List.singleton_append,
    List.cons_append, List.nil_append]

theorem ensure_dir_cmds (st : State) (path : CStr) :
    (ensure_dir st path).2.cmds = st.cmds := by
  unfold ensure_dir
  split
  · split <;> rfl
  · split
    · rfl
    · split <;> rfl

theorem main_loop_cmds (w : World) (hm : ∀ i, w.malloc_ok i = true) (entries : List Dirent)
    (i : Nat) (st : State) :
    (main_loop w entries i st).cmds
      = st.cmds ++ (selected entries).flatMap (fun e => file_cmds e.d_name) := by
  induction entries generalizing i st with
  | nil => simp [main_loop, selected]
  | cons ent rest ih =>
    unfold main_loop
    by_cases hd : ent.d_type = DT_DIR
    · rw [if_pos hd, ih]
      simp [selected, hd]
    · rw [if_neg hd]
      simp only
      by_cases hv : is_video_file ent.d_name = true
      · have hsel : selected (ent :: rest) = ent :: selected rest := by
          simp [selected, hd, hv]
        simp only [hv, Bool.not_true, Bool.false_eq_true, if_false, hm]
        rw [hsel, List.flatMap_cons]
        have hb := basename_no_ext_eq true ent.d_name
        simp only [if_true] at hb
        simp only [file_cmds, hb, ih, process_file_cmds, List.append_assoc]
      · have hv2 : is_video_file ent.d_name = false := by simpa using hv
        simp only [hv2, Bool.not_false, if_true, ih]
        simp [selected, hd, hv2]

theorem main_loop_cmds_congr (w1 w2 : World) (hm : w1.malloc_ok = w2.malloc_ok)
    (entries : List Dirent) (i : Nat) (st1 st2 : State) (hc : st1.cmds = st2.cmds) :
    (main_loop w1 entries i st1).cmds = (main_loop w2 entries i st2).cmds := by
  induction entries generalizing i st1 st2 with
  | nil => simpa [main_loop] using hc
  | cons ent rest ih =>
    unfold main_loop
    by_cases hd : ent.d_type = DT_DIR
    · rw [if_pos hd, if_pos hd]
      exact ih _ _ _ hc
    · rw [if_neg hd, if_neg hd]
      simp only
      by_cases hv : is_video_file ent.d_name = true
      · simp only [hv, Bool.not_true, Bool.false_eq_true, if_false, hm]
        cases hb : basename_no_ext (w2.malloc_ok i) ent.d_name with
        | none => exact ih _ _ _ hc
        | some base =>
          apply ih
          rw [process_file_cmds, process_file_cmds, hc]
      · have hv2 : is_video_file ent.d_name = false := by simpa using hv
        simp only [hv2, Bool.not_false, if_true]
        exact ih _ _ _ hc


theorem initial_state_with_system (w : World) (sys : Nat → CStr → Int) :
    initial_state (w.with_system sys) = initial_state w := rfl

theorem main_exit_one_iff (w : World) :
    (main w).1 = 1 ↔ (portrait_fails w ∨ rotate_fails w ∨ opendir_fails w) := by
  unfold main portrait_fails rotate_fails opendir_fails
  simp only
  by_cases h1 : (ensure_dir (initial_state w) PORTRAIT_DIR).1 ≠ 0
  · simp only [h1, if_true, ne_eq, not_false_eq_true, true_or]
  · rw [if_neg h1]
    by_cases h2 : (ensure_dir (ensure_dir (initial_state w) PORTRAIT_DIR).2 ROTATE_DIR).1 ≠ 0
    · simp only [h2, if_true, ne_eq, not_false_eq_true, true_or, or_true]
    · rw [if_neg h2]
      cases hd : w.opendir_dot with
      | error e => simp
      | ok entries => simp [h1, h2]

theorem main_exit_zero_or_one (w : World) : (main w).1 = 0 ∨ (main w).1 = 1 := by
  unfold main
  simp only
  split
  · exact Or.inr rfl
  · split
    · exact Or.inr rfl
    · split
      · exact Or.inr rfl
      · exact Or.inl rfl

theorem main_cmds_of_exit_one (w : World) (h : (main w).1 = 1) : (main w).2.cmds = [] := by
  unfold main at h ⊢
  simp only at h ⊢
  split
  · exact ensure_dir_cmds _ _
  · split
    · rw [ensure_dir_cmds, ensure_dir_cmds]; rfl
    · split
      · simp only [ensure_dir_cmds]; rfl
      · rename_i h1 h2 _ entries hd
        rw [if_neg h1, if_neg h2, hd] at h
        simp at h

theorem main_cmds_of_ok (w : World) (entries : List Dirent)
    (hopen : w.opendir_dot = Except.ok entries) (hexit : (main w).1 = 0) :
    (main w).2.cmds = (main_loop w entries 0 (initial_state w)).cmds := by
  unfold main at hexit ⊢
  simp only at hexit ⊢
  split
  · rename_i h1
    rw [if_pos h1] at hexit
    simp at hexit
  · split
    · rename_i h1 h2
      rw [if_neg h1, if_pos h2] at hexit
      simp at hexit
    · rw [hopen]
      simp only
      apply main_loop_cmds_congr w w rfl
      rw [ensure_dir_cmds, ensure_dir_cmds]

theorem main_with_system_exit (w : World) (sys : Nat → CStr → Int) :
    (main (w.with_system sys)).1 = (main w).1 := by
  have h0 := main_exit_zero_or_one (w.with_system sys)
  have h1 := main_exit_zero_or_one w
  have i0 := main_exit_one_iff (w.with_system sys)
  have i1 := main_exit_one_iff w
  have e : (portrait_fails (w.with_system sys) ∨ rotate_fails (w.with_system sys)
      ∨ opendir_fails (w.with_system sys))
      ↔ (portrait_fails w ∨ rotate_fails w ∨ opendir_fails w) := Iff.rfl
  rw [e] at i0
  rcases h0 with a | a <;> rcases h1 with b | b
  · rw [a, b]
  · have := i0.mpr (i1.mp b)
    omega
  · have := i1.mpr (i0.mp a)
    omega
  · rw [a, b]

theorem main_with_system_cmds (w : World) (sys : Nat → CStr → Int) :
    (main (w.with_system sys)).2.cmds = (main w).2.cmds := by
  rcases main_exit_zero_or_one w with h | h
  · have h2 : (main (w.with_system sys)).1 = 0 := by rw [main_with_system_exit]; exact h
    cases hd : w.opendir_dot with
    | error e =>
      have := (main_exit_one_iff w).mpr (Or.inr (Or.inr ⟨e, hd⟩))
      omega
    | ok entries =>
      rw [main_cmds_of_ok w entries hd h, main_cmds_of_ok (w.with_system sys) entries hd h2]
      exact main_loop_cmds_congr (w.with_system sys) w rfl entries 0 _ _ rfl
  · have h2 : (main (w.with_system sys)).1 = 1 := by rw [main_with_system_exit]; exact h
    rw [main_cmds_of_exit_one w h, main_cmds_of_exit_one _ h2]


theorem spec_cmd_flags (name vf out : CStr) :
    "ffmpeg -y ".toList <+: spec_cmd name vf out
      ∧ " -map 0:a? ".toList <:+: spec_cmd name vf out := by
  have hA : "ffmpeg -y -i \"".toList = "ffmpeg -y ".toList ++ "-i \"".toList := by decide
  have hB : "\" -map 0:v:0 -map 0:a? -vf \"".toList
      = "\" -map 0:v:0".toList ++ (" -map 0:a? ".toList ++ "-vf \"".toList) := by decide
  constructor
  · unfold spec_cmd
    rw [hA]
    simp only [List.append_assoc]
    exact List.prefix_append _ _
  · unfold spec_cmd
    rw [hB]
    refine ⟨"ffmpeg -y -i \"".toList ++ name ++ "\" -map 0:v:0".toList,
      "-vf \"".toList ++ vf
        ++ "\" -c:v libx264 -preset faster -crf 18 -c:a copy -movflags +faststart \"".toList
        ++ out ++ "\"".toList, ?_⟩
    simp only [List.append_assoc]

theorem mp4_suffix_out_path (b : CStr) (v : Variant) : ".mp4".toList <:+ v.out_path b := by
  cases v
  · exact List.IsSuffix.trans (by decide : ".mp4".toList <:+ "_left_9x16.mp4".toList)
      (List.suffix_append _ _)
  · exact List.IsSuffix.trans (by decide : ".mp4".toList <:+ "_mid_9x16.mp4".toList)
      (List.suffix_append _ _)
  · exact List.IsSuffix.trans (by decide : ".mp4".toList <:+ "_right_9x16.mp4".toList)
      (List.suffix_append _ _)
  · exact List.IsSuffix.trans (by decide : ".mp4".toList <:+ "_rotated_left_90.mp4".toList)
      (List.suffix_append _ _)

theorem out_path_injective_in_variant (b : CStr) (v v2 : Variant)
    (h : v.out_path b = v2.out_path b) : v = v2 := by
  have hp : ∀ s : CStr, ("portrait_clips/".toList ++ b ++ s).head? = some 'p' := fun _ => rfl
  have hr : ∀ s : CStr, ("rotated_left/".toList ++ b ++ s).head? = some 'r' := fun _ => rfl
  cases v <;> cases v2 <;> first
    | rfl
    | (exfalso
       simp only [Variant.out_path, List.append_cancel_left_eq] at h
       revert h
       decide)
    | (exfalso
       have h2 := congrArg List.head? h
       simp only [Variant.out_path, hp, hr] at h2
       revert h2
       decide)


/-! ## Lemmas on accepted names and their base -/

theorem dot_not_mem_of_lower_eq (tok ext : CStr)
    (h : tok.map to_lower_ascii = ext.map to_lower_ascii)
    (hext : '.' ∉ ext.map to_lower_ascii) : '.' ∉ tok := by
  intro hmem
  have h1 : to_lower_ascii '.' ∈ tok.map to_lower_ascii := List.mem_map_of_mem _ hmem
  have h2 : to_lower_ascii '.' = '.' := by decide
  rw [h, h2] at h1
  exact hext h1

theorem is_video_file_split (name : CStr) (h : is_video_file name = true) :
    ∃ stem tok : CStr, name = stem ++ '.' :: tok ∧ tok.length = 3 ∧ '.' ∉ tok := by
  unfold is_video_file at h
  simp only [Bool.or_eq_true, has_ext_iff] at h
  rcases h with (⟨s, t, h1, h2⟩ | ⟨s, t, h1, h2⟩) | ⟨s, t, h1, h2⟩
  all_goals
    refine ⟨s, t, h1, ?_, dot_not_mem_of_lower_eq t _ h2 (by decide)⟩
    have := congrArg List.length h2
    simpa using this

theorem basename_ref_of_accepted (stem tok : CStr) (hs : '/' ∉ stem ++ '.' :: tok)
    (hd : '.' ∉ tok) : basename_ref (stem ++ '.' :: tok) = stem := by
  unfold basename_ref
  rw [after_last_not_mem _ _ hs, before_last_split _ _ _ hd]

theorem append_suffix_cancel (b1 b2 s1 s2 : CStr) (n : Nat) (h1 : n ≤ s1.length)
    (h2 : n ≤ s2.length) (h : b1 ++ s1 = b2 ++ s2) :
    s1.reverse.take n = s2.reverse.take n := by
  have hr := congrArg (fun l => l.reverse.take n) h
  simp only [List.reverse_append] at hr
  rw [List.take_append_of_le_length (by simpa using h1),
    List.take_append_of_le_length (by simpa using h2)] at hr
  exact hr

theorem out_path_injective (b1 b2 : CStr) (v1 v2 : Variant)
    (h : v1.out_path b1 = v2.out_path b2) : v1 = v2 ∧ b1 = b2 := by
  have hp : ∀ (b s : CStr), ("portrait_clips/".toList ++ b ++ s).head? = some 'p' :=
    fun _ _ => rfl
  have hr : ∀ (b s : CStr), ("rotated_left/".toList ++ b ++ s).head? = some 'r' :=
    fun _ _ => rfl
  cases v1 <;> cases v2 <;> first
    | (refine ⟨rfl, ?_⟩
       simp only [Variant.out_path, List.append_assoc, List.append_cancel_left_eq] at h
       exact List.append_cancel_right h)
    | (exfalso
       have h2 := congrArg List.head? h
       simp only [Variant.out_path, hp, hr] at h2
       revert h2
       decide)
    | (exfalso
       simp only [Variant.out_path, List.append_assoc, List.append_cancel_left_eq] at h
       have h3 := append_suffix_cancel _ _ _ _ 13 (by decide) (by decide) h
       revert h3
       decide)

theorem file_out_paths_eq (name : CStr) (h : name.length ≤ NAME_MAX) :
    file_out_paths name
      = [Variant.LeftCrop, Variant.MidCrop, Variant.RightCrop, Variant.RotateLeft].map
          (fun v => v.out_path (basename_ref name)) := by
  have hb : (basename_ref name).length ≤ NAME_MAX :=
    Nat.le_trans (basename_ref_length name) h
  unfold file_out_paths
  rw [basename_no_ext_eq]
  simp only [if_true, List.map_cons, List.map_nil]
  rw [out_left_eq _ hb, out_mid_eq _ hb, out_right_eq _ hb, out_rot_eq _ hb]

theorem format_out_left (b : CStr) :
    format "%s/%s_left_9x16.mp4".toList [PORTRAIT_DIR, b] = Variant.LeftCrop.out_path b := rfl

theorem format_out_mid (b : CStr) :
    format "%s/%s_mid_9x16.mp4".toList [PORTRAIT_DIR, b] = Variant.MidCrop.out_path b := rfl

theorem format_out_right (b : CStr) :
    format "%s/%s_right_9x16.mp4".toList [PORTRAIT_DIR, b] = Variant.RightCrop.out_path b := rfl

theorem format_out_rot (b : CStr) :
    format "%s/%s_rotated_left_90.mp4".toList [ROTATE_DIR, b]
      = Variant.RotateLeft.out_path b := rfl

/-! ## Lemmas on the reads of `has_ext` -/

theorem has_ext_loop_traced_fst (off : Int) (dot ext : CStr) (n i : Nat) :
    (has_ext_loop_traced off dot ext n i).1 = has_ext_loop dot ext n i := by
  induction n generalizing i with
  | zero => rfl
  | succ n ih =>
    simp only [has_ext_loop_traced, has_ext_loop]
    split
    · rfl
    · exact ih (i + 1)

theorem has_ext_loop_traced_reads (off : Int) (dot ext : CStr) (n i : Nat) :
    ∀ idx ∈ (has_ext_loop_traced off dot ext n i).2,
      off + (i : Int) ≤ idx ∧ idx < off + (i : Int) + (n : Int) := by
  induction n generalizing i with
  | zero =>
    intro idx h
    simp [has_ext_loop_traced] at h
  | succ n ih =>
    intro idx h
    simp only [has_ext_loop_traced] at h
    split at h
    · simp only [List.mem_singleton] at h
      subst h
      constructor <;> push_cast <;> omega
    · simp only [List.mem_cons] at h
      rcases h with h | h
      · subst h
        constructor <;> push_cast <;> omega
      · have := ih (i + 1) idx h
        push_cast at this ⊢
        omega

theorem has_ext_traced_fst (name ext : CStr) :
    (has_ext_traced name ext).1 = has_ext name ext := by
  unfold has_ext_traced has_ext
  simp only [has_ext_loop_traced_fst]
  split
  · rfl
  · split
    · rfl
    · rename_i h1 _
      have h2 : name.length > ext.length := by omega
      simp [h2]

theorem has_ext_traced_reads (name ext : CStr) :
    ∀ idx ∈ (has_ext_traced name ext).2, 0 ≤ idx ∧ idx < (name.length : Int) := by
  intro idx h
  unfold has_ext_traced at h
  simp only at h
  split at h
  · simp at h
  · rename_i h1
    have hb := has_ext_loop_traced_reads ((name.length : Int) - (ext.length : Int))
      (name.drop (name.length - ext.length)) ext ext.length 0
    split at h
    · have := hb idx h
      push_cast at this
      omega
    · split at h
      · rw [List.mem_append] at h
        rcases h with h | h
        · have := hb idx h
          push_cast at this
          omega
        · simp only [List.mem_singleton] at h
          omega
      · have := hb idx h
        push_cast at this
        omega

/-! ## Lemmas on the quoted file name -/

theorem spec_cmd_split (name vf out : CStr) :
    spec_cmd name vf out = cmd_head ++ name ++ cmd_tail vf out := by
  unfold spec_cmd cmd_head cmd_tail
  simp only [List.append_assoc]

theorem cmd_tail_head (vf out : CStr) : (cmd_tail vf out).head? = some DQUOTE := rfl

theorem quoted_input_split (name tail : CStr) (hn : DQUOTE ∉ name)
    (ht : tail.head? = some DQUOTE) : quoted_input (cmd_head ++ name ++ tail) = name := by
  have hall : ∀ a ∈ name, (fun c => c != DQUOTE) a = true := by
    intro a ha
    simp only [bne_iff_ne, ne_eq]
    rintro rfl
    exact hn ha
  unfold quoted_input
  rw [List.append_assoc, List.drop_left, List.takeWhile_append_of_pos hall]
  cases tail with
  | nil => simp at ht
  | cons c cs =>
    simp only [List.head?_cons, Option.some.injEq] at ht
    subst ht
    simp

theorem is_video_file_any_stem (stem : CStr) :
    is_video_file (stem ++ ".mp4".toList) = true := by
  rw [is_video_file_iff_ends]
  exact ⟨stem, "mp4".toList, rfl, Or.inl rfl⟩

/-! ## Lemmas on `ensure_dir` -/

theorem ensure_dir_of_dir (st : State) (path : CStr) (h : st.fs.node path = Node.dir) :
    ensure_dir st path = (0, st) := by
  simp [ensure_dir, stat, h]

theorem ensure_dir_of_file (st : State) (path : CStr) (h : st.fs.node path = Node.file) :
    ensure_dir st path
      = (-1, { st with console := st.console ++ [Msg.not_a_directory path] }) := by
  simp [ensure_dir, stat, h]

theorem ensure_dir_of_dangling (st : State) (path : CStr)
    (h : st.fs.node path = Node.dangling) : ensure_dir st path = (0, st) := by
  simp [ensure_dir, stat, mkdir, h]

theorem ensure_dir_of_absent_denied (st : State) (path : CStr)
    (h : st.fs.node path = Node.absent) (hd : st.fs.mkdir_denied path = true) :
    ensure_dir st path
      = (-1, { st with console := st.console ++ [Msg.perror "mkdir".toList Errno.EACCES] }) := by
  simp [ensure_dir, stat, mkdir, h, hd]

theorem ensure_dir_of_absent_created (st : State) (path : CStr)
    (h : st.fs.node path = Node.absent) (hd : st.fs.mkdir_denied path = false) :
    ensure_dir st path
      = (0, { st with fs := { st.fs with
                node := fun p => if p = path then Node.dir else st.fs.node p } }) := by
  simp [ensure_dir, stat, mkdir, h, hd]

theorem ensure_dir_post_unless_dangling (st : State) (path : CStr)
    (hnd : st.fs.node path ≠ Node.dangling) :
    ((ensure_dir st path).1 = 0 → (ensure_dir st path).2.fs.node path = Node.dir)
    ∧ (st.fs.node path = Node.file →
        (ensure_dir st path).1 = -1 ∧ (ensure_dir st path).2.fs = st.fs) := by
  cases hn : st.fs.node path with
  | dangling => exact absurd hn hnd
  | dir =>
    rw [ensure_dir_of_dir st path hn]
    exact ⟨fun _ => hn, fun h => by cases h⟩
  | file =>
    rw [ensure_dir_of_file st path hn]
    refine ⟨fun h => ?_, fun _ => ⟨rfl, rfl⟩⟩
    simp at h
  | absent =>
    cases hd : st.fs.mkdir_denied path with
    | true =>
      rw [ensure_dir_of_absent_denied st path hn hd]
      refine ⟨fun h => ?_, fun h => by cases h⟩
      simp at h
    | false =>
      rw [ensure_dir_of_absent_created st path hn hd]
      refine ⟨fun _ => ?_, fun h => by cases h⟩
      simp

theorem ensure_dir_twice (st : State) (path : CStr) (h : (ensure_dir st path).1 = 0) :
    ensure_dir (ensure_dir st path).2 path = (0, (ensure_dir st path).2) := by
  cases hn : st.fs.node path with
  | dangling =>
    rw [ensure_dir_of_dangling st path hn]
    exact ensure_dir_of_dangling st path hn
  | dir =>
    rw [ensure_dir_of_dir st path hn]
    exact ensure_dir_of_dir st path hn
  | file =>
    rw [ensure_dir_of_file st path hn] at h
    simp at h
  | absent =>
    cases hd : st.fs.mkdir_denied path with
    | true =>
      rw [ensure_dir_of_absent_denied st path hn hd] at h
      simp at h
    | false =>
      rw [ensure_dir_of_absent_created st path hn hd]
      apply ensure_dir_of_dir
      simp

/-! ## Lemmas on the filter expressions -/

theorem out_w_eval (iw : Int) (ih : Nat) : out_w.eval iw ih = ((ih * 9 / 16 : Nat) : Int) := by
  simp only [out_w, FExpr.eval]
  rw [Int.tdiv_eq_ediv (by positivity) (by decide)]
  push_cast
  rfl

/-! ## Claims -/

set_option maxRecDepth 100000

/-- C1: `is_video_file name` is true exactly when the name ends with a literal
dot followed by one of the tokens mp4, mov, mkv compared case-insensitively;
`a.MP4`, `a.Mp4`, `a.mp4` (and `b.MOV`, `c.mkv`) are accepted, while a name with
no extension, with another extension, or with the token but no dot directly
before it (`amp4`, `mp4`) is rejected. -/
theorem c1_is_video_file_iff_dot_token :
    (∀ name : CStr, is_video_file name = true ↔ ends_with_dot_token name)
    ∧ is_video_file "a.MP4".toList = true
    ∧ is_video_file "a.Mp4".toList = true
    ∧ is_video_file "a.mp4".toList = true
    ∧ is_video_file "b.MOV".toList = true
    ∧ is_video_file "c.mkv".toList = true
    ∧ is_video_file "noext".toList = false
    ∧ is_video_file "readme.txt".toList = false
    ∧ is_video_file "amp4".toList = false
    ∧ is_video_file "mp4".toList = false :=
  ⟨is_video_file_iff_ends, by decide, by decide, by decide, by decide, by decide,
    by decide, by decide, by decide, by decide⟩

/-- C2, refuted as stated: `.mp4`, `.mov` and `.mkv` (a dot and an extension,
no stem) are accepted, so it is false that a character precedes the final dot
of every accepted name. -/
theorem c2_stemless_name_accepted :
    is_video_file ".mp4".toList = true
    ∧ is_video_file ".mov".toList = true
    ∧ is_video_file ".mkv".toList = true
    ∧ ¬ (∀ name : CStr, is_video_file name = true → has_stem_before_final_dot name) := by
  refine ⟨by decide, by decide, by decide, ?_⟩
  intro h
  obtain ⟨c, stem, ext, heq, hdot⟩ := h ".mp4".toList (by decide)
  have h0 : ".mp4".toList = '.' :: "mp4".toList := rfl
  rw [h0, List.cons_append] at heq
  injection heq with hc htl
  have hmem : '.' ∈ "mp4".toList := by
    rw [htl]
    simp
  revert hmem
  decide

/-- C2, amended: the length check of `has_ext` guarantees a character before
the extension token, and that character is the dot: every accepted name is
`stem ++ "." ++ tok` with `tok` of three characters, hence has at least four
characters, and the stem may be empty.  The bare tokens `mp4`, `mov`, `mkv`
are rejected. -/
theorem c2_accepted_name_has_dot_before_token (name : CStr)
    (h : is_video_file name = true) :
    (∃ stem tok : CStr, name = stem ++ '.' :: tok ∧ tok.length = 3)
    ∧ 4 ≤ name.length
    ∧ is_video_file "mp4".toList = false
    ∧ is_video_file "mov".toList = false
    ∧ is_video_file "mkv".toList = false := by
  obtain ⟨stem, tok, hname, hlen⟩ := is_video_file_shape name h
  refine ⟨⟨stem, tok, hname, hlen⟩, ?_, by decide, by decide, by decide⟩
  rw [hname]
  simp only [List.length_append, List.length_cons, hlen]
  omega

/-- Witness of the amended C2 at the name `.mp4`. -/
theorem c2_accepted_name_has_dot_before_token_witness :
    is_video_file ".mp4".toList = true
    ∧ ((∃ stem tok : CStr, ".mp4".toList = stem ++ '.' :: tok ∧ tok.length = 3)
      ∧ 4 ≤ ".mp4".toList.length
      ∧ is_video_file "mp4".toList = false
      ∧ is_video_file "mov".toList = false
      ∧ is_video_file "mkv".toList = false) :=
  ⟨by decide, c2_accepted_name_has_dot_before_token ".mp4".toList (by decide)⟩

/-- C3: `basename_no_ext` returns the reference base name (the part after the
last `/`, cut before its last `.`, or whole when it has no `.`) whenever the
allocation succeeds, and the null pointer only when it fails.  Only the final
dot segment is removed: `clip.final.mp4` gives `clip.final`, `noext` gives
`noext`, `.mp4` gives the empty string. -/
theorem c3_basename_no_ext_eq_reference :
    (∀ name : CStr, basename_no_ext true name = some (basename_ref name))
    ∧ (∀ name : CStr, basename_no_ext false name = none)
    ∧ basename_no_ext true "clip.final.mp4".toList = some "clip.final".toList
    ∧ basename_no_ext true "noext".toList = some "noext".toList
    ∧ basename_no_ext true ".mp4".toList = some "".toList
    ∧ basename_no_ext true "dir.d/clip.mov".toList = some "clip".toList :=
  ⟨fun name => by rw [basename_no_ext_eq]; rfl,
    fun name => by rw [basename_no_ext_eq]; rfl,
    by decide, by decide, by decide, by decide⟩


/-- C4: for every source file name of at most `NAME_MAX` characters (every name
a directory entry can carry, whatever its extension) with derived base `b`, the
four output paths built by `main` are `portrait_clips/b_left_9x16.mp4`,
`portrait_clips/b_mid_9x16.mp4`, `portrait_clips/b_right_9x16.mp4` and
`rotated_left/b_rotated_left_90.mp4`; each ends in `.mp4`. -/
theorem c4_output_paths (ok : Bool) (name b : CStr) (hlen : name.length ≤ NAME_MAX)
    (hb : basename_no_ext ok name = some b) :
    out_left b = "portrait_clips/".toList ++ b ++ "_left_9x16.mp4".toList
    ∧ out_mid b = "portrait_clips/".toList ++ b ++ "_mid_9x16.mp4".toList
    ∧ out_right b = "portrait_clips/".toList ++ b ++ "_right_9x16.mp4".toList
    ∧ out_rot b = "rotated_left/".toList ++ b ++ "_rotated_left_90.mp4".toList
    ∧ ".mp4".toList <:+ out_left b ∧ ".mp4".toList <:+ out_mid b
    ∧ ".mp4".toList <:+ out_right b ∧ ".mp4".toList <:+ out_rot b := by
  have hbl : b.length ≤ NAME_MAX := Nat.le_trans (basename_no_ext_length ok name b hb) hlen
  rw [out_left_eq b hbl, out_mid_eq b hbl, out_right_eq b hbl, out_rot_eq b hbl]
  exact ⟨rfl, rfl, rfl, rfl, mp4_suffix_out_path b _, mp4_suffix_out_path b _,
    mp4_suffix_out_path b _, mp4_suffix_out_path b _⟩

/-- Witness of C4 at the accepted name `b.MOV`, whose base is `b`. -/
theorem c4_output_paths_witness :
    is_video_file "b.MOV".toList = true
    ∧ "b.MOV".toList.length ≤ NAME_MAX
    ∧ basename_no_ext true "b.MOV".toList = some "b".toList
    ∧ out_left "b".toList = "portrait_clips/b_left_9x16.mp4".toList
    ∧ out_rot "b".toList = "rotated_left/b_rotated_left_90.mp4".toList :=
  have h := c4_output_paths true "b.MOV".toList "b".toList (by decide) (by decide)
  ⟨by decide, by decide, by decide, h.1, h.2.2.2.1⟩

/-- C5: when `main` gets past its setup and every base-name allocation
succeeds, the commands it runs are the jobs of exactly the entries that are
not flagged as directories and whose name `is_video_file` accepts, in listing
order, four jobs per such entry, once each; an entry flagged as a directory
is never among them.  For the listing `a.mp4`, `b.MOV`, `readme.txt` and
directory `c.mkv` the entries processed are `a.mp4` and `b.MOV`. -/
theorem c5_processed_entries (w : World) (entries : List Dirent)
    (hopen : w.opendir_dot = Except.ok entries) (hexit : (main w).1 = 0)
    (hm : ∀ i, w.malloc_ok i = true) :
    (main w).2.cmds = (selected entries).flatMap (fun e => file_cmds e.d_name)
    ∧ (∀ e ∈ selected entries, e ∈ entries ∧ e.d_type ≠ DT_DIR
        ∧ is_video_file e.d_name = true ∧ (file_cmds e.d_name).length = 4)
    ∧ (∀ e ∈ entries, e.d_type ≠ DT_DIR → is_video_file e.d_name = true → e ∈ selected entries)
    ∧ (selected entries).Sublist entries
    ∧ selected example_listing
        = [{ d_name := "a.mp4".toList, d_type := DT_REG },
           { d_name := "b.MOV".toList, d_type := DT_REG }] := by
  refine ⟨?_, ?_, ?_, List.filter_sublist _, by decide⟩
  · rw [main_cmds_of_ok w entries hopen hexit, main_loop_cmds w hm]
    rfl
  · intro e he
    unfold selected at he
    rw [List.mem_filter] at he
    simp only [Bool.and_eq_true, bne_iff_ne, ne_eq] at he
    refine ⟨he.1, he.2.1, he.2.2, ?_⟩
    unfold file_cmds
    rw [basename_no_ext_eq]
    rfl
  · intro e he hd hv
    unfold selected
    rw [List.mem_filter]
    simp only [Bool.and_eq_true, bne_iff_ne, ne_eq]
    exact ⟨he, hd, hv⟩

/-- Witness of C5 on the example run: eight commands, the jobs of `a.mp4` then
those of `b.MOV`. -/
theorem c5_processed_entries_witness :
    example_world.opendir_dot = Except.ok example_listing
    ∧ (main example_world).1 = 0
    ∧ (∀ i, example_world.malloc_ok i = true)
    ∧ (main example_world).2.cmds
        = file_cmds "a.mp4".toList ++ file_cmds "b.MOV".toList :=
  have h := (c5_processed_entries example_world example_listing rfl (by decide)
    (fun _ => rfl)).1
  ⟨rfl, by decide, fun _ => rfl, by
    rw [h]
    have hs : selected example_listing
        = [{ d_name := "a.mp4".toList, d_type := DT_REG },
           { d_name := "b.MOV".toList, d_type := DT_REG }] := by decide
    rw [hs]
    simp⟩

/-- C6: the commands `main` runs, their order, and its exit status are the same
under any two assignments of statuses to the `system` calls; when setup
succeeds the exit status is 0 under every assignment. -/
theorem c6_failure_isolation (w : World) (sys1 sys2 : Nat → CStr → Int) :
    (main (w.with_system sys1)).2.cmds = (main (w.with_system sys2)).2.cmds
    ∧ (main (w.with_system sys1)).1 = (main (w.with_system sys2)).1
    ∧ ((¬ portrait_fails w ∧ ¬ rotate_fails w ∧ ¬ opendir_fails w) →
        (main (w.with_system sys1)).1 = 0) := by
  refine ⟨?_, ?_, ?_⟩
  · rw [main_with_system_cmds, main_with_system_cmds]
  · rw [main_with_system_exit, main_with_system_exit]
  · intro h
    rw [main_with_system_exit]
    rcases main_exit_zero_or_one w with h0 | h1
    · exact h0
    · rcases (main_exit_one_iff w).mp h1 with a | a | a
      · exact absurd a h.1
      · exact absurd a h.2.1
      · exact absurd a h.2.2

/-- Witness of C6 on the example run: with every command failing, the same
eight commands are run as with every command succeeding, and `main` returns 0. -/
theorem c6_failure_isolation_witness :
    (¬ portrait_fails example_world ∧ ¬ rotate_fails example_world
      ∧ ¬ opendir_fails example_world)
    ∧ (main (example_world.with_system all_fail)).2.cmds
        = (main (example_world.with_system (fun _ _ => 0))).2.cmds
    ∧ (main (example_world.with_system all_fail)).1 = 0
    ∧ (main (example_world.with_system all_fail)).2.cmds.length = 8 :=
  have hs : ¬ portrait_fails example_world ∧ ¬ rotate_fails example_world
      ∧ ¬ opendir_fails example_world := by
    refine ⟨by decide, by decide, ?_⟩
    rintro ⟨e, he⟩
    cases he
  have h := c6_failure_isolation example_world all_fail (fun _ _ => 0)
  ⟨hs, h.1, h.2.2 hs, by decide⟩

/-- C7: whatever statuses the commands return, `main` returns 1 exactly when
preparing the portrait directory fails, or preparing the rotation directory
fails, or the working directory cannot be opened; in that case no command has
been run; in every other case `main` returns 0. -/
theorem c7_exit_status (w : World) (sys : Nat → CStr → Int) :
    ((main (w.with_system sys)).1 = 1
        ↔ (portrait_fails w ∨ rotate_fails w ∨ opendir_fails w))
    ∧ ((main (w.with_system sys)).1 = 1 → (main (w.with_system sys)).2.cmds = [])
    ∧ ((main (w.with_system sys)).1 ≠ 1 → (main (w.with_system sys)).1 = 0) := by
  refine ⟨?_, main_cmds_of_exit_one _, ?_⟩
  · rw [main_with_system_exit]
    exact main_exit_one_iff w
  · intro h
    rcases main_exit_zero_or_one (w.with_system sys) with h0 | h1
    · exact h0
    · exact absurd h1 h

/-- Witness of C7: with `portrait_clips` a regular file `main` returns 1 and
runs nothing; on the example run, with every command failing, it returns 0. -/
theorem c7_exit_status_witness :
    portrait_fails blocked_world
    ∧ (main (blocked_world.with_system all_fail)).1 = 1
    ∧ (main (blocked_world.with_system all_fail)).2.cmds = []
    ∧ (main (example_world.with_system all_fail)).1 ≠ 1
    ∧ (main (example_world.with_system all_fail)).1 = 0 :=
  have hp : portrait_fails blocked_world := by decide
  have h := c7_exit_status blocked_world all_fail
  have h1 := h.1.mpr (Or.inl hp)
  have hne : (main (example_world.with_system all_fail)).1 ≠ 1 := by decide
  ⟨hp, h1, h.2.1 h1, hne, (c7_exit_status example_world all_fail).2.2 hne⟩



/-- C8: for a processed file whose name has at most `NAME_MAX` characters,
`main` runs exactly four commands, in the order LeftCrop, MidCrop, RightCrop,
RotateLeft; each is the specification's command line with the file name, that
variant's filter and that variant's output path, so the four differ only in
filter and output path; each starts with `ffmpeg -y` and contains the optional
audio map `-map 0:a?`.  Over a whole run past setup, with names of at most
`NAME_MAX` characters and successful allocations, the commands run are these
four per selected entry, in listing order. -/
theorem c8_four_commands (w : World) (entries : List Dirent)
    (hopen : w.opendir_dot = Except.ok entries) (hexit : (main w).1 = 0)
    (hm : ∀ i, w.malloc_ok i = true)
    (hnames : ∀ e ∈ entries, e.d_name.length ≤ NAME_MAX) :
    (main w).2.cmds = (selected entries).flatMap (fun e => spec_jobs e.d_name)
    ∧ (∀ (st : State) (name base : CStr), name.length ≤ NAME_MAX →
        basename_no_ext true name = some base →
        (process_file w st name base).cmds = st.cmds ++
          [spec_cmd name "crop=floor(ih*9/16):ih:0:0".toList (out_left base),
           spec_cmd name "crop=floor(ih*9/16):ih:(iw-floor(ih*9/16))/2:0".toList (out_mid base),
           spec_cmd name "crop=floor(ih*9/16):ih:(iw-floor(ih*9/16)):0".toList (out_right base),
           spec_cmd name "transpose=2".toList (out_rot base)])
    ∧ (∀ name vf out : CStr, "ffmpeg -y ".toList <+: spec_cmd name vf out
        ∧ " -map 0:a? ".toList <:+: spec_cmd name vf out) := by
  refine ⟨?_, ?_, spec_cmd_flags⟩
  · rw [main_cmds_of_ok w entries hopen hexit, main_loop_cmds w hm]
    simp only [initial_state, List.nil_append]
    apply List.flatMap_congr
    intro e he
    apply file_cmds_eq_spec
    apply hnames
    exact (List.mem_filter.mp he).1
  · intro st name base hn hb
    have hbl : base.length ≤ NAME_MAX :=
      Nat.le_trans (basename_no_ext_length true name base hb) hn
    rw [process_file_cmds, cmd_left_eq name base hn hbl, cmd_mid_eq name base hn hbl,
      cmd_right_eq name base hn hbl, cmd_rot_eq name base hn hbl, out_left_eq base hbl,
      out_mid_eq base hbl, out_right_eq base hbl, out_rot_eq base hbl]
    rfl

/-- Witness of C8 on the example run. -/
theorem c8_four_commands_witness :
    example_world.opendir_dot = Except.ok example_listing
    ∧ (main example_world).1 = 0
    ∧ (∀ i, example_world.malloc_ok i = true)
    ∧ (∀ e ∈ example_listing, e.d_name.length ≤ NAME_MAX)
    ∧ (main example_world).2.cmds
        = (selected example_listing).flatMap (fun e => spec_jobs e.d_name)
    ∧ (main example_world).2.cmds.head?
        = some ("ffmpeg -y -i \"a.mp4\" -map 0:v:0 -map 0:a? -vf \"crop=floor(ih*9/16):ih:0:0\" "
            ++ "-c:v libx264 -preset faster -crf 18 -c:a copy -movflags +faststart "
            ++ "\"portrait_clips/a_left_9x16.mp4\"").toList :=
  have h := c8_four_commands example_world example_listing rfl (by decide) (fun _ => rfl)
    (by decide)
  ⟨rfl, by decide, fun _ => rfl, by decide, h.1, rfl⟩

/-- C9: the three filter strings of the source are the texts of `crop_left`,
`crop_mid`, `crop_right`; read with integer arithmetic on an `iw`×`ih` input
with `w = ih*9/16 ≤ iw`, the left window is `w`×`ih` at `(0,0)`, the middle one
is `w`×`ih` at `((iw-w)/2, 0)`, the right one is `w`×`ih` at `(iw-w, 0)`, and
each lies inside the frame.  For 1920×1080: `w = 607`, origins 0, 656, 1313. -/
theorem c9_crop_windows (iw ih : Nat) (hw : ih * 9 / 16 ≤ iw) :
    (crop_left.render = vf_left ∧ crop_mid.render = vf_mid ∧ crop_right.render = vf_right)
    ∧ crop_left.eval iw ih
        = { w := ((ih * 9 / 16 : Nat) : Int), h := ih, x := 0, y := 0 }
    ∧ crop_mid.eval iw ih
        = { w := ((ih * 9 / 16 : Nat) : Int), h := ih,
            x := (((iw - ih * 9 / 16) / 2 : Nat) : Int), y := 0 }
    ∧ crop_right.eval iw ih
        = { w := ((ih * 9 / 16 : Nat) : Int), h := ih,
            x := ((iw - ih * 9 / 16 : Nat) : Int), y := 0 }
    ∧ (crop_left.eval iw ih).inside iw
    ∧ (crop_mid.eval iw ih).inside iw
    ∧ (crop_right.eval iw ih).inside iw
    ∧ crop_left.eval 1920 1080 = { w := 607, h := 1080, x := 0, y := 0 }
    ∧ crop_mid.eval 1920 1080 = { w := 607, h := 1080, x := 656, y := 0 }
    ∧ crop_right.eval 1920 1080 = { w := 607, h := 1080, x := 1313, y := 0 } := by
  have hW := out_w_eval iw ih
  have hL : crop_left.eval iw ih
      = { w := ((ih * 9 / 16 : Nat) : Int), h := ih, x := 0, y := 0 } := by
    simp only [crop_left, CropFilter.eval, hW, FExpr.eval]
    rfl
  have hR : crop_right.eval iw ih
      = { w := ((ih * 9 / 16 : Nat) : Int), h := ih,
          x := ((iw - ih * 9 / 16 : Nat) : Int), y := 0 } := by
    simp only [crop_right, CropFilter.eval, hW, FExpr.eval]
    rw [Nat.cast_sub hw]
    rfl
  have hM : crop_mid.eval iw ih
      = { w := ((ih * 9 / 16 : Nat) : Int), h := ih,
          x := (((iw - ih * 9 / 16) / 2 : Nat) : Int), y := 0 } := by
    show ({ w := out_w.eval iw ih, h := ih,
            x := Int.tdiv ((iw : Int) - out_w.eval iw ih) ((2 : Nat) : Int),
            y := ((0 : Nat) : Int) } : Window) = _
    rw [hW, ← Nat.cast_sub hw, Int.tdiv_eq_ediv (by positivity) (by decide)]
    push_cast
    rfl
  refine ⟨⟨by decide, by decide, by decide⟩, hL, hM, hR, ?_, ?_, ?_, by decide, by decide,
    by decide⟩
  · rw [hL]
    simp only [Window.inside]
    omega
  · rw [hM]
    simp only [Window.inside]
    omega
  · rw [hR]
    simp only [Window.inside]
    omega

/-- Witness of C9 on a 1920×1080 input. -/
theorem c9_crop_windows_witness :
    1080 * 9 / 16 ≤ 1920
    ∧ crop_mid.eval (1920 : Nat) (1080 : Nat)
        = { w := ((1080 * 9 / 16 : Nat) : Int), h := (1080 : Nat),
            x := (((1920 - 1080 * 9 / 16) / 2 : Nat) : Int), y := 0 }
    ∧ (crop_right.eval (1920 : Nat) (1080 : Nat)).inside (1920 : Nat) :=
  have h := c9_crop_windows 1920 1080 (by decide)
  ⟨by decide, h.2.2.1, h.2.2.2.2.2.2.1⟩

/-- C10: for every source file name of at most `NAME_MAX` characters (every
name a directory entry can carry) with derived base `b`, the four output paths
of its LeftCrop, MidCrop, RightCrop and RotateLeft jobs are pairwise distinct. -/
theorem c10_variant_paths_distinct (ok : Bool) (name b : CStr)
    (hlen : name.length ≤ NAME_MAX) (hb : basename_no_ext ok name = some b) :
    out_left b ≠ out_mid b ∧ out_left b ≠ out_right b ∧ out_left b ≠ out_rot b
    ∧ out_mid b ≠ out_right b ∧ out_mid b ≠ out_rot b ∧ out_right b ≠ out_rot b := by
  have hbl : b.length ≤ NAME_MAX := Nat.le_trans (basename_no_ext_length ok name b hb) hlen
  rw [out_left_eq b hbl, out_mid_eq b hbl, out_right_eq b hbl, out_rot_eq b hbl]
  refine ⟨?_, ?_, ?_, ?_, ?_, ?_⟩ <;>
  · intro h
    have hv := out_path_injective_in_variant b _ _ h
    cases hv

/-- Witness of C10 at the accepted name `a.mp4`, whose base is `a`. -/
theorem c10_variant_paths_distinct_witness :
    is_video_file "a.mp4".toList = true
    ∧ "a.mp4".toList.length ≤ NAME_MAX
    ∧ basename_no_ext true "a.mp4".toList = some "a".toList
    ∧ out_left "a".toList ≠ out_mid "a".toList
    ∧ out_right "a".toList ≠ out_rot "a".toList :=
  have h := c10_variant_paths_distinct true "a.mp4".toList "a".toList (by decide) (by decide)
  ⟨by decide, by decide, by decide, h.1, h.2.2.2.2.2⟩

/-- C11, evaluated at the failing input: with `portrait_clips` a dangling
symbolic link, `stat` fails, `mkdir` fails with `EEXIST`, and `ensure_dir`
returns 0 although the path is still the dangling link and the state is
unchanged; `main` then returns 0 and runs its eight commands.  In every state
where the path is not a dangling link the postcondition holds: a result of 0
means a directory at the path, and a regular file at the path gives -1 with the
filesystem unchanged. -/
theorem c11_ensure_dir_dangling_link :
    (ensure_dir (initial_state dangling_world) PORTRAIT_DIR).1 = 0
    ∧ (ensure_dir (initial_state dangling_world) PORTRAIT_DIR).2.fs.node PORTRAIT_DIR
        = Node.dangling
    ∧ (ensure_dir (initial_state dangling_world) PORTRAIT_DIR).2.fs.node PORTRAIT_DIR
        ≠ Node.dir
    ∧ (main dangling_world).1 = 0
    ∧ (main dangling_world).2.cmds.length = 8
    ∧ (∀ (st : State) (path : CStr), st.fs.node path ≠ Node.dangling →
        ((ensure_dir st path).1 = 0 → (ensure_dir st path).2.fs.node path = Node.dir)
        ∧ (st.fs.node path = Node.file →
            (ensure_dir st path).1 = -1 ∧ (ensure_dir st path).2.fs = st.fs)) :=
  ⟨by decide, by decide, by decide, by decide, by decide, ensure_dir_post_unless_dangling⟩

/-- C12: when the path is already a directory `ensure_dir` returns 0 and
leaves the state unchanged; and whenever a first call returns 0, a second call
on the same path in the resulting state returns 0 and leaves that state
unchanged. -/
theorem c12_ensure_dir_idempotent (st : State) (path : CStr) :
    (st.fs.node path = Node.dir → ensure_dir st path = (0, st))
    ∧ ((ensure_dir st path).1 = 0 →
        ensure_dir (ensure_dir st path).2 path = (0, (ensure_dir st path).2)) :=
  ⟨ensure_dir_of_dir st path, ensure_dir_twice st path⟩

/-- Witness of C12 on the empty filesystem: the first call creates
`portrait_clips`, the second finds it. -/
theorem c12_ensure_dir_idempotent_witness :
    (ensure_dir (initial_state example_world) PORTRAIT_DIR).1 = 0
    ∧ (ensure_dir (initial_state example_world) PORTRAIT_DIR).2.fs.node PORTRAIT_DIR
        = Node.dir
    ∧ ensure_dir (ensure_dir (initial_state example_world) PORTRAIT_DIR).2 PORTRAIT_DIR
        = (0, (ensure_dir (initial_state example_world) PORTRAIT_DIR).2) :=
  have h0 : (ensure_dir (initial_state example_world) PORTRAIT_DIR).1 = 0 := by decide
  ⟨h0, by decide,
    (c12_ensure_dir_idempotent (initial_state example_world) PORTRAIT_DIR).2 h0⟩

/-- C13, evaluated at the failing input: for a height of 1080 (and of 720) the
width expression `floor(ih*9/16)` of all three crop filters is odd: 607 (and
405). -/
theorem c13_crop_width_odd :
    out_w.render = "floor(ih*9/16)".toList
    ∧ out_w.eval 1920 1080 = 607
    ∧ out_w.eval 1920 1080 % 2 = 1
    ∧ (crop_left.eval 1920 1080).w % 2 = 1
    ∧ (crop_mid.eval 1920 1080).w % 2 = 1
    ∧ (crop_right.eval 1920 1080).w % 2 = 1
    ∧ out_w.eval 1280 720 = 405
    ∧ ¬ (∀ ih : Nat, out_w.eval 1920 ih % 2 = 0) := by
  refine ⟨by decide, by decide, by decide, by decide, by decide, by decide, by decide, ?_⟩
  intro h
  have := h 1080
  revert this
  decide

/-- C14, refuted as stated: `a.mp4` and `a.mov` are distinct accepted names
without `/`, both have base `a`, and `main` builds the same four output paths
for them. -/
theorem c14_same_base_collision :
    is_video_file "a.mp4".toList = true ∧ is_video_file "a.mov".toList = true
    ∧ '/' ∉ "a.mp4".toList ∧ '/' ∉ "a.mov".toList
    ∧ "a.mp4".toList ≠ "a.mov".toList
    ∧ file_out_paths "a.mp4".toList = file_out_paths "a.mov".toList
    ∧ file_out_paths "a.mp4".toList
        = ["portrait_clips/a_left_9x16.mp4".toList, "portrait_clips/a_mid_9x16.mp4".toList,
           "portrait_clips/a_right_9x16.mp4".toList,
           "rotated_left/a_rotated_left_90.mp4".toList]
    ∧ ¬ (∀ n1 n2 : CStr, is_video_file n1 = true → is_video_file n2 = true →
          '/' ∉ n1 → '/' ∉ n2 → n1 ≠ n2 →
          ∀ p ∈ file_out_paths n1, p ∉ file_out_paths n2) := by
  refine ⟨by decide, by decide, by decide, by decide, by decide, by decide, by decide, ?_⟩
  intro h
  exact h "a.mp4".toList "a.mov".toList (by decide) (by decide) (by decide) (by decide)
    (by decide) "portrait_clips/a_left_9x16.mp4".toList (by decide) (by decide)

/-- C14, amended: for two file names of at most `NAME_MAX` characters (in
particular two accepted names without `/`) whose base names differ, no output
path built for a job of the first equals an output path built for a job of the
second; the map from (base name, variant) to output path is injective. -/
theorem c14_paths_distinct_for_distinct_bases (n1 n2 : CStr)
    (hl1 : n1.length ≤ NAME_MAX) (hl2 : n2.length ≤ NAME_MAX)
    (hb : basename_no_ext true n1 ≠ basename_no_ext true n2) :
    (∀ p ∈ file_out_paths n1, p ∉ file_out_paths n2)
    ∧ (∀ (b1 b2 : CStr) (v1 v2 : Variant),
        v1.out_path b1 = v2.out_path b2 → v1 = v2 ∧ b1 = b2) := by
  refine ⟨?_, fun b1 b2 v1 v2 h => out_path_injective b1 b2 v1 v2 h⟩
  have hne : basename_ref n1 ≠ basename_ref n2 := by
    intro e
    apply hb
    rw [basename_no_ext_eq, basename_no_ext_eq, e]
  intro p hp1 hp2
  rw [file_out_paths_eq n1 hl1, List.mem_map] at hp1
  rw [file_out_paths_eq n2 hl2, List.mem_map] at hp2
  obtain ⟨v1, _, e1⟩ := hp1
  obtain ⟨v2, _, e2⟩ := hp2
  exact hne (out_path_injective _ _ v1 v2 (e1.trans e2.symm)).2

/-- Witness of the amended C14 at `a.mp4` and `b.MOV`. -/
theorem c14_paths_distinct_for_distinct_bases_witness :
    is_video_file "a.mp4".toList = true ∧ is_video_file "b.MOV".toList = true
    ∧ "a.mp4".toList.length ≤ NAME_MAX ∧ "b.MOV".toList.length ≤ NAME_MAX
    ∧ basename_no_ext true "a.mp4".toList ≠ basename_no_ext true "b.MOV".toList
    ∧ (∀ p ∈ file_out_paths "a.mp4".toList, p ∉ file_out_paths "b.MOV".toList) :=
  ⟨by decide, by decide, by decide, by decide, by decide,
    (c14_paths_distinct_for_distinct_bases "a.mp4".toList "b.MOV".toList (by decide)
      (by decide) (by decide)).1⟩

/-- C16: for every name accepted by `is_video_file` and containing no `/`,
`basename_no_ext` returns the name without its last four characters (the dot
and the matched token); the base followed by those four characters is the
name, and the base is non-empty when the name has more than four characters. -/
theorem c16_basename_strips_matched_extension (name : CStr)
    (h : is_video_file name = true) (hs : '/' ∉ name) :
    basename_no_ext true name = some (name.take (name.length - 4))
    ∧ name.take (name.length - 4) ++ name.drop (name.length - 4) = name
    ∧ (name.drop (name.length - 4)).length = 4
    ∧ (name.drop (name.length - 4)).head? = some '.'
    ∧ (4 < name.length → name.take (name.length - 4) ≠ []) := by
  obtain ⟨stem, tok, rfl, hlen, hdot⟩ := is_video_file_split name h
  have hl : (stem ++ '.' :: tok).length - 4 = stem.length := by
    simp only [List.length_append, List.length_cons, hlen]
    omega
  have htake : (stem ++ '.' :: tok).take stem.length = stem := by
    simp
  have hdrop : (stem ++ '.' :: tok).drop stem.length = '.' :: tok := by
    simp
  rw [hl, htake, hdrop]
  refine ⟨?_, rfl, by simp [hlen], rfl, ?_⟩
  · rw [basename_no_ext_eq, basename_ref_of_accepted stem tok hs hdot]
    rfl
  · intro h4 he
    rw [he] at h4
    simp only [List.nil_append, List.length_cons, hlen] at h4
    omega

/-- Witness of C16 at `clip.final.mp4`. -/
theorem c16_basename_strips_matched_extension_witness :
    is_video_file "clip.final.mp4".toList = true
    ∧ '/' ∉ "clip.final.mp4".toList
    ∧ basename_no_ext true "clip.final.mp4".toList = some "clip.final".toList
    ∧ "clip.final".toList ++ ".mp4".toList = "clip.final.mp4".toList :=
  have h := c16_basename_strips_matched_extension "clip.final.mp4".toList (by decide)
    (by decide)
  ⟨by decide, by decide, h.1, h.2.1⟩

/-- C17: for every file name of at most `NAME_MAX` = 255 characters (accepted
or not) with derived base, each of the four formatted output paths is shorter
than the 1024-byte buffer and each of the four formatted commands is shorter
than the 4096-byte buffer, so every `snprintf` stores the complete text. -/
theorem c17_no_truncation (ok : Bool) (name base : CStr) (hlen : name.length ≤ NAME_MAX)
    (hb : basename_no_ext ok name = some base) :
    ((format "%s/%s_left_9x16.mp4".toList [PORTRAIT_DIR, base]).length < OUT_SIZE
      ∧ (format "%s/%s_mid_9x16.mp4".toList [PORTRAIT_DIR, base]).length < OUT_SIZE
      ∧ (format "%s/%s_right_9x16.mp4".toList [PORTRAIT_DIR, base]).length < OUT_SIZE
      ∧ (format "%s/%s_rotated_left_90.mp4".toList [ROTATE_DIR, base]).length < OUT_SIZE)
    ∧ ((format crop_cmd_fmt [name, vf_left, out_left base]).length < CMD_SIZE
      ∧ (format crop_cmd_fmt [name, vf_mid, out_mid base]).length < CMD_SIZE
      ∧ (format crop_cmd_fmt [name, vf_right, out_right base]).length < CMD_SIZE
      ∧ (format rot_cmd_fmt [name, out_rot base]).length < CMD_SIZE)
    ∧ (out_left base = format "%s/%s_left_9x16.mp4".toList [PORTRAIT_DIR, base]
      ∧ out_mid base = format "%s/%s_mid_9x16.mp4".toList [PORTRAIT_DIR, base]
      ∧ out_right base = format "%s/%s_right_9x16.mp4".toList [PORTRAIT_DIR, base]
      ∧ out_rot base = format "%s/%s_rotated_left_90.mp4".toList [ROTATE_DIR, base])
    ∧ (cmd_left name base = format crop_cmd_fmt [name, vf_left, out_left base]
      ∧ cmd_mid name base = format crop_cmd_fmt [name, vf_mid, out_mid base]
      ∧ cmd_right name base = format crop_cmd_fmt [name, vf_right, out_right base]
      ∧ cmd_rot name base = format rot_cmd_fmt [name, out_rot base]) := by
  have hbl : base.length ≤ NAME_MAX := Nat.le_trans (basename_no_ext_length ok name base hb) hlen
  have hp := out_path_length base
  have hv := filter_text_length
  have hvl : vf_left = Variant.LeftCrop.filter_text := rfl
  have hvm : vf_mid = Variant.MidCrop.filter_text := rfl
  have hvr : vf_right = Variant.RightCrop.filter_text := rfl
  have hP : (format "%s/%s_left_9x16.mp4".toList [PORTRAIT_DIR, base]).length < OUT_SIZE
      ∧ (format "%s/%s_mid_9x16.mp4".toList [PORTRAIT_DIR, base]).length < OUT_SIZE
      ∧ (format "%s/%s_right_9x16.mp4".toList [PORTRAIT_DIR, base]).length < OUT_SIZE
      ∧ (format "%s/%s_rotated_left_90.mp4".toList [ROTATE_DIR, base]).length < OUT_SIZE := by
    rw [format_out_left, format_out_mid, format_out_right, format_out_rot]
    have h1 := hp Variant.LeftCrop
    have h2 := hp Variant.MidCrop
    have h3 := hp Variant.RightCrop
    have h4 := hp Variant.RotateLeft
    simp only [NAME_MAX, OUT_SIZE] at *
    omega
  have hC : (format crop_cmd_fmt [name, vf_left, out_left base]).length < CMD_SIZE
      ∧ (format crop_cmd_fmt [name, vf_mid, out_mid base]).length < CMD_SIZE
      ∧ (format crop_cmd_fmt [name, vf_right, out_right base]).length < CMD_SIZE
      ∧ (format rot_cmd_fmt [name, out_rot base]).length < CMD_SIZE := by
    rw [format_crop_cmd, format_crop_cmd, format_crop_cmd, format_rot_cmd, spec_cmd_length,
      spec_cmd_length, spec_cmd_length, spec_cmd_length, out_left_eq base hbl,
      out_mid_eq base hbl, out_right_eq base hbl, out_rot_eq base hbl, hvl, hvm, hvr]
    have h1 := hp Variant.LeftCrop
    have h2 := hp Variant.MidCrop
    have h3 := hp Variant.RightCrop
    have h4 := hp Variant.RotateLeft
    have g1 := hv Variant.LeftCrop
    have g2 := hv Variant.MidCrop
    have g3 := hv Variant.RightCrop
    have g4 := hv Variant.RotateLeft
    simp only [NAME_MAX, CMD_SIZE] at *
    omega
  refine ⟨hP, hC, ⟨?_, ?_, ?_, ?_⟩, ⟨?_, ?_, ?_, ?_⟩⟩
  · exact snprintf_of_short _ _ _ hP.1
  · exact snprintf_of_short _ _ _ hP.2.1
  · exact snprintf_of_short _ _ _ hP.2.2.1
  · exact snprintf_of_short _ _ _ hP.2.2.2
  · exact snprintf_of_short _ _ _ hC.1
  · exact snprintf_of_short _ _ _ hC.2.1
  · exact snprintf_of_short _ _ _ hC.2.2.1
  · exact snprintf_of_short _ _ _ hC.2.2.2

/-- Witness of C17 at the accepted name `b.MOV`. -/
theorem c17_no_truncation_witness :
    is_video_file "b.MOV".toList = true
    ∧ "b.MOV".toList.length ≤ NAME_MAX
    ∧ basename_no_ext true "b.MOV".toList = some "b".toList
    ∧ (format "%s/%s_left_9x16.mp4".toList [PORTRAIT_DIR, "b".toList]).length < OUT_SIZE
    ∧ (format crop_cmd_fmt ["b.MOV".toList, vf_left, out_left "b".toList]).length < CMD_SIZE :=
  have h := c17_no_truncation true "b.MOV".toList "b".toList (by decide) (by decide)
  ⟨by decide, by decide, by decide, h.1.1, h.2.1.1⟩

/-- C18: `has_ext` with its reads recorded computes the same result as
`has_ext`, and for every name and extension each offset of `name` it reads lies
in `0 .. strlen(name) - 1`; on the early return of line 22 nothing is read, and
whenever line 32 is reached its test `ln > le` is true. -/
theorem c18_has_ext_reads_in_bounds (name ext : CStr) :
    (has_ext_traced name ext).1 = has_ext name ext
    ∧ (∀ idx ∈ (has_ext_traced name ext).2, 0 ≤ idx ∧ idx < (name.length : Int))
    ∧ (name.length < ext.length + 1 → (has_ext_traced name ext).2 = [])
    ∧ (¬ name.length < ext.length + 1 → name.length > ext.length) := by
  refine ⟨has_ext_traced_fst name ext, has_ext_traced_reads name ext, ?_, ?_⟩
  · intro h
    simp [has_ext_traced, h]
  · intro h
    omega

/-- Witness of C18: on `a.mp4` and `mp4` the reads are the offsets 2, 3, 4 and
then 1; on the too short name `mp4` nothing is read. -/
theorem c18_has_ext_reads_in_bounds_witness :
    (has_ext_traced "a.mp4".toList "mp4".toList).2 = [2, 3, 4, 1]
    ∧ (∀ idx ∈ (has_ext_traced "a.mp4".toList "mp4".toList).2,
        0 ≤ idx ∧ idx < ("a.mp4".toList.length : Int))
    ∧ "mp4".toList.length < "mp4".toList.length + 1
    ∧ (has_ext_traced "mp4".toList "mp4".toList).2 = [] :=
  ⟨by decide, (c18_has_ext_reads_in_bounds "a.mp4".toList "mp4".toList).2.1, by decide,
    (c18_has_ext_reads_in_bounds "mp4".toList "mp4".toList).2.2.1 (by decide)⟩

end VideoCrop
